import Mathlib

/-!
Verification of the logistics / inventory core of the NoMoreWasteapp repository.

The development shallowly embeds the data model (SQL schema in the repository's
setup script) and the operations of the API services.  Pure request handlers
present in the repository are translated directly; components whose code lives
only behind repository modules not present here (the tour repository, the stock
ledger, the donation reconciler) are modelled from the design document, as
indicated by their doc comments.
-/

set_option maxHeartbeats 1000000

namespace NoMoreWaste

/-! ## Recipes (src/API/recipes/service.js) -/

/-- An ingredient row of a recipe, as returned by the recipe repository
(`Recipe_Ingredients` join): carries the referenced `Product_ID` and a
quantity. -/
structure Ingredient where
  productId : Nat
  quantity : Nat
deriving Repr, DecidableEq

/-- A recipe together with its list of ingredients, the shape consumed by
`filterRecipesByProducts` (`recipe.Ingredients`). -/
structure Recipe where
  id : Nat
  ingredients : List Ingredient
deriving Repr, DecidableEq

/-- From src/API/recipes/service.js, `filterRecipesByProducts`: keeps the
recipes all of whose ingredients reference a product in `productIds`
(`allRecipes.filter(recipe => recipe.Ingredients.every(ingredient =>
productIds.includes(ingredient.Product_ID)))`). -/
def filterRecipesByProducts (allRecipes : List Recipe) (productIds : List Nat) : List Recipe :=
  allRecipes.filter fun recipe =>
    recipe.ingredients.all fun ingredient => productIds.contains ingredient.productId

/-- Claim C10: `filterRecipesByProducts(productIds)` returns exactly those
recipes, from the full recipe list, whose every ingredient's `Product_ID` is a
member of `productIds`; a recipe with no ingredients is always included, and
for an empty `productIds` list only ingredient-less recipes are returned. -/
theorem C10_filterRecipesByProducts_exact (allRecipes : List Recipe) (productIds : List Nat) :
    (∀ r, r ∈ filterRecipesByProducts allRecipes productIds ↔
      r ∈ allRecipes ∧ ∀ i ∈ r.ingredients, i.productId ∈ productIds) ∧
    (∀ r ∈ allRecipes, r.ingredients = [] → r ∈ filterRecipesByProducts allRecipes productIds) ∧
    filterRecipesByProducts allRecipes [] = allRecipes.filter fun r => r.ingredients.isEmpty := by
  refine ⟨?_, ?_, ?_⟩
  · intro r
    simp [filterRecipesByProducts, List.mem_filter, List.all_eq_true]
  · intro r hr hempty
    simp [filterRecipesByProducts, List.mem_filter, hr, hempty]
  · apply List.filter_congr
    intro r _
    cases h : r.ingredients <;> simp [h]

/-- A recipe with no ingredients, for the concrete instantiation below. -/
def recipeEmpty : Recipe := ⟨1, []⟩

/-- A recipe with a single ingredient referencing product 10. -/
def recipeApple : Recipe := ⟨2, [⟨10, 3⟩]⟩

/-- Witness for C10 at a concrete input: with an empty product list, the
ingredient-less recipe is kept and the other is dropped. -/
theorem C10_filterRecipesByProducts_witness :
    recipeEmpty ∈ filterRecipesByProducts [recipeEmpty, recipeApple] [] ∧
    filterRecipesByProducts [recipeEmpty, recipeApple] [] =
      [recipeEmpty, recipeApple].filter fun r => r.ingredients.isEmpty :=
  ⟨(C10_filterRecipesByProducts_exact [recipeEmpty, recipeApple] []).2.1 recipeEmpty
      (by decide) (by decide),
    (C10_filterRecipesByProducts_exact [recipeEmpty, recipeApple] []).2.2⟩

/-! ## Skills (src/API/skills service and repository) -/

/-- A row of the `Skills` table: `Skill_ID` (primary key) and `Name`. -/
structure Skill where
  id : Nat
  name : String
deriving Repr, DecidableEq

/-- Service errors relevant to the skills service (src/API/common/service_errors):
`InvalidArgumentError` and `NotFoundError`. -/
inductive SkillErr
  | invalidArgument
  | notFound
deriving Repr, DecidableEq

/-- From src/API/skills/repository.js `getOneBy("Name", value)`:
`SELECT * FROM Skills WHERE Name = ?`, first row or `null`. -/
def getOneByName (skills : List Skill) (name : String) : Option Skill :=
  skills.find? fun s => s.name == name

/-- The persisted `Skills` table plus the auto-increment counter feeding
`Skill_ID`. -/
structure SkillStore where
  skills : List Skill
  nextId : Nat
deriving Repr, DecidableEq

/-- From the skills service `createOne` (src/unnamed/part_002 lines 9-21):
rejects with `InvalidArgumentError` when `getOneBy("Name", value.name)` finds an
existing skill, otherwise inserts a fresh row.  The Joi schema validation is
independent of the store and does not affect name uniqueness, so it is not
modelled. -/
def skillCreateOne (st : SkillStore) (name : String) : Except SkillErr SkillStore :=
  match getOneByName st.skills name with
  | some _ => .error .invalidArgument
  | none => .ok ⟨st.skills ++ [⟨st.nextId, name⟩], st.nextId + 1⟩

/-- From the skills service `updateOne` (src/unnamed/part_002 lines 56-81) over
repository `updateOne` (`UPDATE Skills SET Name = ? WHERE Skill_ID = ?`):
fetches the current skill (`NotFoundError` when absent); when the patch carries
a `name` different from the current one and `getOneBy("Name", ...)` finds a
skill, rejects with `InvalidArgumentError`; otherwise writes the merged record.
`newName = none` models a patch body without a `name` field (Joi rejects empty
strings, so a present name is a plain string compared with `!==`). -/
def skillUpdateOne (st : SkillStore) (id : Nat) (newName : Option String) :
    Except SkillErr SkillStore :=
  match st.skills.find? (fun s => s.id == id) with
  | none => .error .notFound
  | some current =>
    match newName with
    | some n =>
      if (n != current.name) && (getOneByName st.skills n).isSome then
        .error .invalidArgument
      else
        .ok ⟨st.skills.map (fun s => if s.id == id then { s with name := n } else s), st.nextId⟩
    | none =>
      .ok ⟨st.skills.map (fun s => if s.id == id then { s with name := current.name } else s),
        st.nextId⟩

/-- The two skill mutations the uniqueness claim quantifies over. -/
inductive SkillOp
  | create (name : String)
  | update (id : Nat) (newName : Option String)
deriving Repr, DecidableEq

/-- One mutation against the store; a rejected mutation leaves the store
unchanged (the service throws before calling the repository). -/
def applySkillOp (st : SkillStore) : SkillOp → SkillStore
  | .create name =>
    match skillCreateOne st name with
    | .ok st' => st'
    | .error _ => st
  | .update id n =>
    match skillUpdateOne st id n with
    | .ok st' => st'
    | .error _ => st

/-- A sequence of skill mutations. -/
def runSkillOps (st : SkillStore) (ops : List SkillOp) : SkillStore :=
  ops.foldl applySkillOp st

/-- Store sanity: every persisted id is below the auto-increment counter, and
rows are pairwise distinct in both id (primary key) and name. -/
def SkillsInv (st : SkillStore) : Prop :=
  (∀ s ∈ st.skills, s.id < st.nextId) ∧
  st.skills.Pairwise fun a b => a.id ≠ b.id ∧ a.name ≠ b.name

theorem getOneByName_eq_none {skills : List Skill} {name : String}
    (h : getOneByName skills name = none) : ∀ s ∈ skills, s.name ≠ name := by
  intro s hs
  have := List.find?_eq_none.mp h s hs
  simpa using this

theorem skillCreate_preserves (st : SkillStore) (name : String) (st' : SkillStore)
    (hinv : SkillsInv st) (h : skillCreateOne st name = .ok st') : SkillsInv st' := by
  unfold skillCreateOne at h
  cases hfind : getOneByName st.skills name with
  | some s => rw [hfind] at h; exact absurd h (by simp)
  | none =>
    rw [hfind] at h
    obtain ⟨hids, hpw⟩ := hinv
    have hnames := getOneByName_eq_none hfind
    cases h
    constructor
    · intro s hs
      rcases List.mem_append.mp hs with hs | hs
      · exact Nat.lt_succ_of_lt (hids s hs)
      · simp only [List.mem_singleton] at hs
        subst hs
        exact Nat.lt_succ_self _
    · rw [List.pairwise_append]
      refine ⟨hpw, List.pairwise_singleton _ _, ?_⟩
      intro a ha b hb
      simp only [List.mem_singleton] at hb
      subst hb
      exact ⟨Nat.ne_of_lt (hids a ha), hnames a ha⟩

theorem skillUpdate_preserves (st : SkillStore) (id : Nat) (newName : Option String)
    (st' : SkillStore) (hinv : SkillsInv st) (h : skillUpdateOne st id newName = .ok st') :
    SkillsInv st' := by
  obtain ⟨hids, hpw⟩ := hinv
  unfold skillUpdateOne at h
  split at h
  case h_1 => exact absurd h (by simp)
  case h_2 current hfind =>
    have hcur_mem : current ∈ st.skills := List.mem_of_find?_eq_some hfind
    have hcur_id : current.id = id := by
      have := List.find?_some hfind
      simpa using this
    -- the only element of the list whose id is `id` is `current`
    have huniq : ∀ a ∈ st.skills, a.id = id → a = current := by
      intro a ha haid
      by_contra hne
      have hsym : Symmetric fun a b : Skill => a.id ≠ b.id ∧ a.name ≠ b.name := by
        intro x y hxy
        exact ⟨hxy.1.symm, hxy.2.symm⟩
      have := (hpw.forall hsym) ha hcur_mem hne
      exact this.1 (haid.trans hcur_id.symm)
    -- both success branches write a mapped list; establish the invariant for it
    have hmap : ∀ n : String,
        (n = current.name ∨ ∀ s ∈ st.skills, s.name ≠ n) →
        SkillsInv ⟨st.skills.map (fun s => if s.id == id then { s with name := n } else s),
          st.nextId⟩ := by
      intro n hn
      constructor
      · intro s hs
        obtain ⟨a, ha, rfl⟩ := List.mem_map.mp hs
        by_cases hid : a.id == id <;> simp [hid] <;> exact hids a ha
      · rw [List.pairwise_map]
        refine List.Pairwise.imp_of_mem ?_ hpw
        intro a b ha hb hab
        by_cases haid : a.id == id <;> by_cases hbid : b.id == id <;>
          simp only [haid, hbid, if_pos, if_neg, Bool.false_eq_true, not_false_iff, ite_true,
            ite_false]
      -- four cases on which of the two rows is the updated one
        · exact absurd ((beq_iff_eq.mp haid).trans (beq_iff_eq.mp hbid).symm) hab.1
        · refine ⟨hab.1, ?_⟩
          rcases hn with hn | hn
          · have : a = current := huniq a ha (beq_iff_eq.mp haid)
            simpa [hn, this] using hab.2
          · exact fun hc => hn b hb hc.symm
        · refine ⟨hab.1, ?_⟩
          rcases hn with hn | hn
          · have : b = current := huniq b hb (beq_iff_eq.mp hbid)
            simpa [hn, this] using hab.2
          · exact fun hc => hn a ha hc
        · exact hab
    split at h
    case h_1 n =>
      split at h
      · exact absurd h (by simp)
      case isFalse hguard =>
        cases h
        apply hmap
        rcases Bool.and_eq_false_iff.mp (Bool.not_eq_true _ |>.mp fun hc => hguard hc) with hg | hg
        · left
          simpa using hg
        · right
          intro s hs
          have : getOneByName st.skills n = none := by
            cases hgo : getOneByName st.skills n with
            | none => rfl
            | some _ => rw [hgo] at hg; simp at hg
          exact getOneByName_eq_none this s hs
    case h_2 =>
      cases h
      exact hmap current.name (Or.inl rfl)

theorem applySkillOp_preserves (st : SkillStore) (op : SkillOp) (hinv : SkillsInv st) :
    SkillsInv (applySkillOp st op) := by
  cases op with
  | create name =>
    simp only [applySkillOp]
    cases h : skillCreateOne st name with
    | ok st' => exact skillCreate_preserves st name st' hinv h
    | error _ => exact hinv
  | update id n =>
    simp only [applySkillOp]
    cases h : skillUpdateOne st id n with
    | ok st' => exact skillUpdate_preserves st id n st' hinv h
    | error _ => exact hinv

theorem runSkillOps_preserves (st : SkillStore) (ops : List SkillOp) (hinv : SkillsInv st) :
    SkillsInv (runSkillOps st ops) := by
  induction ops generalizing st with
  | nil => exact hinv
  | cons op rest ih =>
    exact ih (applySkillOp st op) (applySkillOp_preserves st op hinv)

/-- Claim C9: creating a skill whose name equals an existing skill's name fails
with `InvalidArgument`, updating a skill to a name already used by a different
skill fails with `InvalidArgument`, and consequently no two skills ever share a
name through these operations. -/
theorem C9_skill_names_unique (st : SkillStore) (ops : List SkillOp) (hinv : SkillsInv st) :
    (∀ name, (∃ s ∈ st.skills, s.name = name) →
      skillCreateOne st name = .error .invalidArgument) ∧
    (∀ id n current, st.skills.find? (fun s => s.id == id) = some current →
      n ≠ current.name → (∃ s ∈ st.skills, s.name = n) →
      skillUpdateOne st id (some n) = .error .invalidArgument) ∧
    (∀ a ∈ (runSkillOps st ops).skills, ∀ b ∈ (runSkillOps st ops).skills,
      a.name = b.name → a = b) := by
  refine ⟨?_, ?_, ?_⟩
  · intro name ⟨s, hs, hname⟩
    have : (getOneByName st.skills name).isSome := by
      rw [getOneByName, List.find?_isSome]
      exact ⟨s, hs, by simp [hname]⟩
    unfold skillCreateOne
    cases h : getOneByName st.skills name with
    | none => rw [h] at this; simp at this
    | some _ => rfl
  · intro id n current hfind hne ⟨s, hs, hname⟩
    have hsome : (getOneByName st.skills n).isSome := by
      rw [getOneByName, List.find?_isSome]
      exact ⟨s, hs, by simp [hname]⟩
    have hguard : ((n != current.name) && (getOneByName st.skills n).isSome) = true := by
      rw [Bool.and_eq_true, bne_iff_ne]
      exact ⟨hne, hsome⟩
    simp [skillUpdateOne, hfind, hguard]
  · have hinv' := runSkillOps_preserves st ops hinv
    obtain ⟨_, hpw⟩ := hinv'
    intro a ha b hb hname
    by_contra hne
    have hsym : Symmetric fun a b : Skill => a.id ≠ b.id ∧ a.name ≠ b.name := by
      intro x y hxy
      exact ⟨hxy.1.symm, hxy.2.symm⟩
    exact ((hpw.forall hsym) ha hb hne).2 hname

/-- Witness for C9 at a concrete input: a duplicated create is rejected with
InvalidArgument, and so is renaming a skill to a name a different skill
holds. -/
theorem C9_skill_names_unique_witness :
    skillCreateOne ⟨[⟨0, "Cuisine"⟩], 1⟩ "Cuisine" = .error .invalidArgument ∧
    skillUpdateOne ⟨[⟨0, "Cuisine"⟩, ⟨1, "Jardinage"⟩], 2⟩ 1 (some "Cuisine") =
      .error .invalidArgument :=
  ⟨(C9_skill_names_unique ⟨[⟨0, "Cuisine"⟩], 1⟩ []
      (by refine ⟨?_, ?_⟩ <;> decide)).1 "Cuisine" ⟨⟨0, "Cuisine"⟩, by decide, rfl⟩,
    (C9_skill_names_unique ⟨[⟨0, "Cuisine"⟩, ⟨1, "Jardinage"⟩], 2⟩ []
      (by refine ⟨?_, ?_⟩ <;> decide)).2.1 1 "Cuisine" ⟨1, "Jardinage"⟩ (by decide)
      (by decide) ⟨⟨0, "Cuisine"⟩, by decide, rfl⟩⟩

/-! ## User skills (schema `User_Skills` and src/API/skills/repository.js) -/

/-- A row of the `User_Skills` table: `(User_ID, Skill_ID)` key with an
optional `Validation_Date` (`NULL` while the skill is not yet validated).
Dates are coded as numbers. -/
structure UserSkillRow where
  userId : Nat
  skillId : Nat
  validationDate : Option Nat
deriving Repr, DecidableEq

/-- A row of the `Skills` table as joined by the user-skill queries. -/
structure SkillRow where
  skillId : Nat
  name : String
deriving Repr, DecidableEq

/-- A row of the result set of `getAllForUser`: `Skills.Skill_ID`,
`Skills.Name`, `User_Skills.Validation_Date`. -/
structure UserSkillView where
  skillId : Nat
  name : String
  validationDate : Option Nat
deriving Repr, DecidableEq

/-- From src/API/skills/repository.js `getAllForUser` (lines 99-112), whose
comment describes it as returning the user's validated skills:
`SELECT Skills.Skill_ID, Skills.Name, User_Skills.Validation_Date FROM
User_Skills JOIN Skills ON User_Skills.Skill_ID = Skills.Skill_ID WHERE
User_Skills.User_ID = ?`.  The query carries no condition on
`Validation_Date`; the join on the `Skills` primary key is embedded as a
lookup. -/
def getAllForUser (userSkills : List UserSkillRow) (skills : List SkillRow)
    (userId : Nat) : List UserSkillView :=
  (userSkills.filter fun us => us.userId == userId).filterMap fun us =>
    (skills.find? fun sk => sk.skillId == us.skillId).map fun sk =>
      ⟨sk.skillId, sk.name, us.validationDate⟩

/-- From src/API/skills/repository.js `verifySkill` (lines 138-151):
`SELECT User_Skills.User_ID, User_Skills.Skill_ID, User_Skills.Validation_Date
FROM User_Skills JOIN Skills ON User_Skills.Skill_ID = Skills.Skill_ID WHERE
User_Skills.User_ID = ? AND Skills.Name = ?`, first row or `null`.  Again no
condition on `Validation_Date`. -/
def verifySkill (userSkills : List UserSkillRow) (skills : List SkillRow)
    (userId : Nat) (skillName : String) : Option UserSkillRow :=
  (userSkills.filter fun us =>
    us.userId == userId &&
      skills.any fun sk => sk.skillId == us.skillId && sk.name == skillName).head?

/-- Claim C7 (divergence): with a `User_Skills` row whose `Validation_Date` is
`NULL`, the skill-verification query still answers positively and the
"validated skills" listing still returns the skill, contradicting the stated
rule that only records with a non-null validation date count. -/
theorem C7_unvalidated_skill_counted :
    verifySkill [⟨1, 2, none⟩] [⟨2, "Cuisine"⟩] 1 "Cuisine" = some ⟨1, 2, none⟩ ∧
    (verifySkill [⟨1, 2, none⟩] [⟨2, "Cuisine"⟩] 1 "Cuisine").isSome = true ∧
    getAllForUser [⟨1, 2, none⟩] [⟨2, "Cuisine"⟩] 1 = [⟨2, "Cuisine", none⟩] := by
  refine ⟨?_, ?_, ?_⟩ <;> rfl

/-! ## Stock Ledger

The repository's stock code is not present under the sources here; only the
`Stocks (Product_ID, Quantity, Zone)` table declaration in the schema is.  The
ledger below is therefore modelled from the design document (§4.1): stock per
(product, zone) key, atomic `reserve` / `commit` / `release` / `credit` with a
reservation list. -/

/-- Status of a reservation handle: taken, converted into an on-hand
decrement, or cancelled. -/
inductive HStatus
  | active
  | committed
  | released
deriving Repr, DecidableEq

/-- A reservation recorded by the ledger. -/
structure Reservation where
  handle : Nat
  product : Nat
  zone : String
  qty : Nat
  status : HStatus
deriving Repr, DecidableEq

/-- Failure modes of the ledger operations (spec §7 taxonomy). -/
inductive LedgerErr
  | insufficientStock
  | invalidArgument
  | notFound
deriving Repr, DecidableEq

/-- A (product, zone) stock key. -/
abbrev StockKey := Nat × String

/-- Quantity stored at a key of the stock association list; absent keys hold
zero. -/
def lookupStock (stock : List (StockKey × Int)) (k : StockKey) : Int :=
  match stock.find? (fun e => e.fst == k) with
  | some e => e.snd
  | none => 0

/-- Adds `d` to the quantity stored at key `k`, appending the key when it is
absent. -/
def addStock : List (StockKey × Int) → StockKey → Int → List (StockKey × Int)
  | [], k, d => [(k, d)]
  | e :: rest, k, d =>
    if e.fst == k then (e.fst, e.snd + d) :: rest else e :: addStock rest k d

/-- Modelled from the spec: the Stock Ledger state — on-hand quantities per
(product, zone) and the recorded reservations, with the next fresh handle. -/
structure Ledger where
  stock : List (StockKey × Int)
  reservations : List Reservation
  nextHandle : Nat
deriving Repr, DecidableEq

/-- On-hand quantity of a product in a zone. -/
def onHand (l : Ledger) (p : Nat) (z : String) : Int :=
  lookupStock l.stock (p, z)

/-- Contribution of one reservation to the active reserved total of a key:
its quantity when it is active at that key, zero otherwise. -/
def resContrib (p : Nat) (z : String) (r : Reservation) : Int :=
  if r.status = .active ∧ r.product = p ∧ r.zone = z then (r.qty : Int) else 0

/-- Total quantity currently reserved (active reservations) at a key. -/
def activeReserved (l : Ledger) (p : Nat) (z : String) : Int :=
  (l.reservations.map (resContrib p z)).sum

/-- `available = on_hand - already_reserved` (spec §4.1). -/
def available (l : Ledger) (p : Nat) (z : String) : Int :=
  onHand l p z - activeReserved l p z

/-- Modelled from the spec: `reserve(product, zone, qty)` atomically checks
`available`; if `qty <= available` it records a reservation and returns the
handle, otherwise fails with `InsufficientStock` without side effects. -/
def reserve (l : Ledger) (p : Nat) (z : String) (qty : Nat) :
    Except LedgerErr (Ledger × Nat) :=
  if (qty : Int) ≤ available l p z then
    .ok ({ stock := l.stock,
           reservations := ⟨l.nextHandle, p, z, qty, .active⟩ :: l.reservations,
           nextHandle := l.nextHandle + 1 }, l.nextHandle)
  else
    .error .insufficientStock

/-- The reservation recorded under a handle. -/
def findRes (l : Ledger) (h : Nat) : Option Reservation :=
  l.reservations.find? fun r => r.handle == h

/-- Rewrites the status of the reservation(s) recorded under a handle. -/
def setStatus (rs : List Reservation) (h : Nat) (st : HStatus) : List Reservation :=
  rs.map fun r => if r.handle == h then { r with status := st } else r

/-- Modelled from the spec: `commit(handle)` converts a reservation into a
permanent decrement of on-hand quantity; committing an already-committed
handle is a no-op success. -/
def commit (l : Ledger) (h : Nat) : Except LedgerErr Ledger :=
  match findRes l h with
  | none => .error .notFound
  | some r =>
    match r.status with
    | .active =>
      .ok { stock := addStock l.stock (r.product, r.zone) (-(r.qty : Int)),
            reservations := setStatus l.reservations h .committed,
            nextHandle := l.nextHandle }
    | .committed => .ok l
    | .released => .error .invalidArgument

/-- Modelled from the spec: `release(handle)` cancels a reservation without
touching on-hand quantity; releasing an already-released handle is a no-op
success. -/
def release (l : Ledger) (h : Nat) : Except LedgerErr Ledger :=
  match findRes l h with
  | none => .error .notFound
  | some r =>
    match r.status with
    | .active => .ok { l with reservations := setStatus l.reservations h .released }
    | .released => .ok l
    | .committed => .error .invalidArgument

/-- Modelled from the spec: `credit(product, zone, qty)` increases on-hand
quantity; succeeds for `qty > 0` and fails with `InvalidArgument`
otherwise. -/
def credit (l : Ledger) (p : Nat) (z : String) (qty : Nat) : Except LedgerErr Ledger :=
  if 0 < qty then
    .ok { l with stock := addStock l.stock (p, z) (qty : Int) }
  else
    .error .invalidArgument

/-- The non-negative-stock property of the claim: at every key, on-hand is
non-negative and available (on-hand minus reserved) is non-negative. -/
def LedgerGood (l : Ledger) : Prop :=
  ∀ p z, 0 ≤ onHand l p z ∧ 0 ≤ available l p z

theorem resContrib_nonneg (p : Nat) (z : String) (r : Reservation) :
    0 ≤ resContrib p z r := by
  unfold resContrib
  split
  · exact Int.natCast_nonneg _
  · exact le_refl 0

theorem activeReserved_nonneg (l : Ledger) (p : Nat) (z : String) :
    0 ≤ activeReserved l p z := by
  apply List.sum_nonneg
  intro x hx
  obtain ⟨r, _, rfl⟩ := List.mem_map.mp hx
  exact resContrib_nonneg p z r

theorem lookupStock_addStock (stock : List (StockKey × Int)) (k k' : StockKey) (d : Int) :
    lookupStock (addStock stock k d) k' =
      if k' = k then lookupStock stock k' + d else lookupStock stock k' := by
  induction stock with
  | nil =>
    by_cases h : k' = k
    · subst h
      simp [addStock, lookupStock, List.find?]
    · have hb : (k == k') = false := beq_eq_false_iff_ne.mpr fun hc => h hc.symm
      simp [addStock, lookupStock, List.find?, hb, h]
  | cons e rest ih =>
    by_cases hek : e.fst = k
    · have hbek : (e.fst == k) = true := beq_iff_eq.mpr hek
      by_cases hk' : k' = k
      · have hbek' : (e.fst == k') = true := beq_iff_eq.mpr (hek.trans hk'.symm)
        simp [addStock, lookupStock, List.find?, hbek, hbek', hk']
      · have hbek' : (e.fst == k') = false :=
          beq_eq_false_iff_ne.mpr fun hc => hk' (hc.symm.trans hek)
        simp [addStock, lookupStock, List.find?, hbek, hbek', hk']
    · have hbek : (e.fst == k) = false := beq_eq_false_iff_ne.mpr hek
      by_cases hk'e : e.fst = k'
      · have hk' : ¬ k' = k := fun hc => hek (hk'e.trans hc)
        have hbek' : (e.fst == k') = true := beq_iff_eq.mpr hk'e
        simp [addStock, lookupStock, List.find?, hbek, hbek', hk']
      · have hbek' : (e.fst == k') = false := beq_eq_false_iff_ne.mpr hk'e
        have ih' := ih
        by_cases hk' : k' = k <;>
          simp only [addStock, lookupStock, List.find?, hbek, hbek', hk', Bool.false_eq_true,
            if_false, if_true, if_pos, if_neg, not_false_iff] at ih' ⊢ <;>
          exact ih'

theorem map_setStatus_sum (rs : List Reservation) (h : Nat) (p : Nat) (z : String)
    (st : HStatus) (hst : st ≠ HStatus.active) :
    ((setStatus rs h st).map (resContrib p z)).sum =
      (rs.map (resContrib p z)).sum -
        ((rs.filter fun r => r.handle == h).map (resContrib p z)).sum := by
  induction rs with
  | nil => simp [setStatus]
  | cons r rest ih =>
    by_cases hh : r.handle == h
    · have hzero : resContrib p z { r with status := st } = 0 := by
        simp [resContrib, hst]
      simp only [setStatus, List.map_cons, List.filter_cons, hh, if_pos, List.sum_cons]
      rw [show (List.map (fun r => if r.handle == h then { r with status := st } else r) rest) =
        setStatus rest h st from rfl, ih, hzero]
      ring
    · simp only [setStatus, List.map_cons, List.filter_cons, hh, Bool.false_eq_true, if_false,
        List.sum_cons]
      rw [show (List.map (fun r => if r.handle == h then { r with status := st } else r) rest) =
        setStatus rest h st from rfl, ih]
      ring

theorem handleSum_le_activeReserved (rs : List Reservation) (h : Nat) (p : Nat) (z : String) :
    ((rs.filter fun r => r.handle == h).map (resContrib p z)).sum ≤
      (rs.map (resContrib p z)).sum := by
  induction rs with
  | nil => simp
  | cons r rest ih =>
    by_cases hh : r.handle == h
    · simp only [List.filter_cons, hh, if_pos, List.map_cons, List.sum_cons]
      exact add_le_add_left ih _
    · simp only [List.filter_cons, hh, Bool.false_eq_true, if_false, List.map_cons, List.sum_cons]
      have := resContrib_nonneg p z r
      linarith [ih]

theorem handleSum_nonneg (rs : List Reservation) (h : Nat) (p : Nat) (z : String) :
    0 ≤ ((rs.filter fun r => r.handle == h).map (resContrib p z)).sum := by
  apply List.sum_nonneg
  intro x hx
  obtain ⟨r, _, rfl⟩ := List.mem_map.mp hx
  exact resContrib_nonneg p z r

theorem available_consRes (l : Ledger) (r : Reservation) (n : Nat) (p' : Nat) (z' : String) :
    available ⟨l.stock, r :: l.reservations, n⟩ p' z' =
      available l p' z' - resContrib p' z' r := by
  unfold available onHand activeReserved
  simp only [List.map_cons, List.sum_cons]
  ring

theorem reserve_preserves (l : Ledger) (p : Nat) (z : String) (qty : Nat) (l' : Ledger)
    (hn : Nat) (hgood : LedgerGood l) (h : reserve l p z qty = .ok (l', hn)) :
    LedgerGood l' := by
  unfold reserve at h
  split at h
  case isTrue hle =>
    cases h
    intro p' z'
    obtain ⟨h1, h2⟩ := hgood p' z'
    refine ⟨h1, ?_⟩
    rw [available_consRes]
    by_cases hpz : p = p' ∧ z = z'
    · obtain ⟨rfl, rfl⟩ := hpz
      have hc : resContrib p z ⟨l.nextHandle, p, z, qty, .active⟩ = (qty : Int) := by
        simp [resContrib]
      rw [hc]
      linarith
    · have hc : resContrib p' z' ⟨l.nextHandle, p, z, qty, .active⟩ = 0 := by
        simp only [resContrib]
        rw [if_neg]
        exact fun hc => hpz ⟨hc.2.1, hc.2.2⟩
      rw [hc]
      linarith
  case isFalse => exact absurd h (by simp)

theorem commit_preserves (l : Ledger) (hd : Nat) (l' : Ledger)
    (hgood : LedgerGood l) (h : commit l hd = .ok l') : LedgerGood l' := by
  unfold commit at h
  split at h
  case h_1 => exact absurd h (by simp)
  case h_2 r hfind =>
    have hfind' : l.reservations.find? (fun x => x.handle == hd) = some r := hfind
    have hr_mem : r ∈ l.reservations := List.mem_of_find?_eq_some hfind'
    have hr_h : (r.handle == hd) = true := by
      have := List.find?_some hfind'
      simpa using this
    split at h
    case h_1 hst =>
      cases h
      intro p' z'
      obtain ⟨h1, h2⟩ := hgood p' z'
      have hres : activeReserved
          ⟨addStock l.stock (r.product, r.zone) (-(r.qty : Int)),
            setStatus l.reservations hd .committed, l.nextHandle⟩ p' z' =
          activeReserved l p' z' -
            ((l.reservations.filter fun x => x.handle == hd).map (resContrib p' z')).sum :=
        map_setStatus_sum l.reservations hd p' z' .committed (by simp)
      have hFh0 : 0 ≤ ((l.reservations.filter fun x => x.handle == hd).map
          (resContrib p' z')).sum := handleSum_nonneg _ _ _ _
      have hFhle : ((l.reservations.filter fun x => x.handle == hd).map
          (resContrib p' z')).sum ≤ activeReserved l p' z' :=
        handleSum_le_activeReserved _ _ _ _
      have honh : onHand
          ⟨addStock l.stock (r.product, r.zone) (-(r.qty : Int)),
            setStatus l.reservations hd .committed, l.nextHandle⟩ p' z' =
          if (p', z') = (r.product, r.zone) then onHand l p' z' + -(r.qty : Int)
          else onHand l p' z' := by
        unfold onHand
        exact lookupStock_addStock l.stock (r.product, r.zone) (p', z') (-(r.qty : Int))
      unfold available at h2 ⊢
      rw [honh, hres]
      by_cases hk : (p', z') = (r.product, r.zone)
      · have hkey : r.product = p' ∧ r.zone = z' := by
          obtain ⟨hp, hz⟩ := Prod.mk.injEq .. ▸ hk
          exact ⟨hp.symm, hz.symm⟩
        have hcr : resContrib p' z' r = (r.qty : Int) := by
          simp [resContrib, hst, hkey.1, hkey.2]
        have hrle : (r.qty : Int) ≤
            ((l.reservations.filter fun x => x.handle == hd).map (resContrib p' z')).sum := by
          rw [← hcr]
          apply List.single_le_sum
          · intro x hx
            obtain ⟨a, _, rfl⟩ := List.mem_map.mp hx
            exact resContrib_nonneg p' z' a
          · exact List.mem_map_of_mem _ (List.mem_filter.mpr ⟨hr_mem, hr_h⟩)
        rw [if_pos hk]
        constructor <;> linarith
      · rw [if_neg hk]
        constructor <;> linarith
    case h_2 hst =>
      cases h
      exact hgood
    case h_3 => exact absurd h (by simp)

theorem release_preserves (l : Ledger) (hd : Nat) (l' : Ledger)
    (hgood : LedgerGood l) (h : release l hd = .ok l') : LedgerGood l' := by
  unfold release at h
  split at h
  case h_1 => exact absurd h (by simp)
  case h_2 r hfind =>
    split at h
    case h_1 hst =>
      cases h
      intro p' z'
      obtain ⟨h1, h2⟩ := hgood p' z'
      have hres : activeReserved
          ⟨l.stock, setStatus l.reservations hd .released, l.nextHandle⟩ p' z' =
          activeReserved l p' z' -
            ((l.reservations.filter fun x => x.handle == hd).map (resContrib p' z')).sum :=
        map_setStatus_sum l.reservations hd p' z' .released (by simp)
      have hFh0 : 0 ≤ ((l.reservations.filter fun x => x.handle == hd).map
          (resContrib p' z')).sum := handleSum_nonneg _ _ _ _
      refine ⟨h1, ?_⟩
      unfold available at h2 ⊢
      unfold onHand at h1 h2 ⊢
      simp only at hres ⊢
      rw [hres]
      linarith
    case h_2 hst =>
      cases h
      exact hgood
    case h_3 => exact absurd h (by simp)

theorem credit_preserves (l : Ledger) (p : Nat) (z : String) (qty : Nat) (l' : Ledger)
    (hgood : LedgerGood l) (h : credit l p z qty = .ok l') : LedgerGood l' := by
  unfold credit at h
  split at h
  case isTrue hpos =>
    cases h
    intro p' z'
    obtain ⟨h1, h2⟩ := hgood p' z'
    have honh : onHand ⟨addStock l.stock (p, z) (qty : Int), l.reservations, l.nextHandle⟩ p' z' =
        if (p', z') = (p, z) then onHand l p' z' + (qty : Int) else onHand l p' z' := by
      unfold onHand
      exact lookupStock_addStock l.stock (p, z) (p', z') (qty : Int)
    have hres : activeReserved
        ⟨addStock l.stock (p, z) (qty : Int), l.reservations, l.nextHandle⟩ p' z' =
        activeReserved l p' z' := rfl
    have hq : (0 : Int) ≤ (qty : Int) := Int.natCast_nonneg _
    unfold available at h2 ⊢
    rw [honh, hres]
    by_cases hk : (p', z') = (p, z)
    · rw [if_pos hk]
      constructor <;> linarith
    · rw [if_neg hk]
      constructor <;> linarith
  case isFalse => exact absurd h (by simp)

/-- The four ledger mutations of the claim; a failed operation leaves the
ledger unchanged (the spec specifies failures without side effects). -/
inductive LOp
  | reserve (p : Nat) (z : String) (qty : Nat)
  | commit (h : Nat)
  | release (h : Nat)
  | credit (p : Nat) (z : String) (qty : Nat)
deriving Repr, DecidableEq

/-- One ledger operation against the state. -/
def applyLOp (l : Ledger) : LOp → Ledger
  | .reserve p z q =>
    match reserve l p z q with
    | .ok (l', _) => l'
    | .error _ => l
  | .commit h =>
    match commit l h with
    | .ok l' => l'
    | .error _ => l
  | .release h =>
    match release l h with
    | .ok l' => l'
    | .error _ => l
  | .credit p z q =>
    match credit l p z q with
    | .ok l' => l'
    | .error _ => l

/-- A sequence of ledger operations. -/
def runLOps (l : Ledger) (ops : List LOp) : Ledger :=
  ops.foldl applyLOp l

theorem applyLOp_preserves (l : Ledger) (op : LOp) (hgood : LedgerGood l) :
    LedgerGood (applyLOp l op) := by
  cases op with
  | reserve p z q =>
    simp only [applyLOp]
    cases h : reserve l p z q with
    | ok x => exact reserve_preserves l p z q x.1 x.2 hgood h
    | error _ => exact hgood
  | commit hd =>
    simp only [applyLOp]
    cases h : commit l hd with
    | ok l' => exact commit_preserves l hd l' hgood h
    | error _ => exact hgood
  | release hd =>
    simp only [applyLOp]
    cases h : release l hd with
    | ok l' => exact release_preserves l hd l' hgood h
    | error _ => exact hgood
  | credit p z q =>
    simp only [applyLOp]
    cases h : credit l p z q with
    | ok l' => exact credit_preserves l p z q l' hgood h
    | error _ => exact hgood

theorem runLOps_preserves (l : Ledger) (ops : List LOp) (hgood : LedgerGood l) :
    LedgerGood (runLOps l ops) := by
  induction ops generalizing l with
  | nil => exact hgood
  | cons op rest ih => exact ih (applyLOp l op) (applyLOp_preserves l op hgood)

/-- Claim C4: for every (product, zone) stock entry and after every sequence of
reserve, commit, release and credit operations, on-hand is non-negative and
available (on-hand minus reserved) is non-negative. -/
theorem C4_stock_never_negative (l : Ledger) (ops : List LOp) (hgood : LedgerGood l) :
    ∀ p z, 0 ≤ onHand (runLOps l ops) p z ∧ 0 ≤ available (runLOps l ops) p z :=
  runLOps_preserves l ops hgood

/-- Witness for C4 at a concrete input: from the empty ledger, a mixed
sequence of credits, reserves, commits and releases keeps the touched key
sound. -/
theorem C4_stock_never_negative_witness :
    0 ≤ onHand (runLOps ⟨[], [], 0⟩
        [.credit 1 "A1" 10, .reserve 1 "A1" 7, .commit 0, .reserve 1 "A1" 3, .release 1,
          .reserve 1 "A1" 9]) 1 "A1" ∧
      0 ≤ available (runLOps ⟨[], [], 0⟩
        [.credit 1 "A1" 10, .reserve 1 "A1" 7, .commit 0, .reserve 1 "A1" 3, .release 1,
          .reserve 1 "A1" 9]) 1 "A1" :=
  C4_stock_never_negative ⟨[], [], 0⟩
    [.credit 1 "A1" 10, .reserve 1 "A1" 7, .commit 0, .reserve 1 "A1" 3, .release 1,
      .reserve 1 "A1" 9]
    (by
      intro p z
      simp [onHand, available, activeReserved, lookupStock])
    1 "A1"

theorem findRes_setStatus (rs : List Reservation) (hd : Nat) (st : HStatus) :
    (setStatus rs hd st).find? (fun r => r.handle == hd) =
      (rs.find? (fun r => r.handle == hd)).map fun r => { r with status := st } := by
  induction rs with
  | nil => simp [setStatus]
  | cons r rest ih =>
    by_cases hh : (r.handle == hd) = true
    · have heq : r.handle = hd := beq_iff_eq.mp hh
      simp [setStatus, List.find?_cons, heq]
    · simp only [setStatus, List.map_cons] at ih ⊢
      rw [if_neg (by simp [hh])]
      rw [List.find?_cons_of_neg _ (by simp_all), List.find?_cons_of_neg _ (by simp_all)]
      exact ih

theorem commit_idem_aux (l : Ledger) (hd : Nat) (l' : Ledger) (h : commit l hd = .ok l') :
    commit l' hd = .ok l' := by
  unfold commit at h
  split at h
  case h_1 => exact absurd h (by simp)
  case h_2 r hfind =>
    have hfind' : l.reservations.find? (fun x => x.handle == hd) = some r := hfind
    have hr_h : (r.handle == hd) = true := by
      have := List.find?_some hfind'
      simpa using this
    split at h
    case h_1 hst =>
      cases h
      unfold commit findRes
      have : (setStatus l.reservations hd .committed).find? (fun x => x.handle == hd) =
          some { r with status := .committed } := by
        rw [findRes_setStatus, hfind']
        rfl
      simp only [this]
    case h_2 hst =>
      cases h
      simp [commit, findRes, hfind', hst]
    case h_3 => exact absurd h (by simp)

theorem release_idem_aux (l : Ledger) (hd : Nat) (l' : Ledger) (h : release l hd = .ok l') :
    release l' hd = .ok l' := by
  unfold release at h
  split at h
  case h_1 => exact absurd h (by simp)
  case h_2 r hfind =>
    have hfind' : l.reservations.find? (fun x => x.handle == hd) = some r := hfind
    split at h
    case h_1 hst =>
      cases h
      unfold release findRes
      have : (setStatus l.reservations hd .released).find? (fun x => x.handle == hd) =
          some { r with status := .released } := by
        rw [findRes_setStatus, hfind']
        rfl
      simp only [this]
    case h_2 hst =>
      cases h
      simp [release, findRes, hfind', hst]
    case h_3 => exact absurd h (by simp)

/-- Claim C5: commit and release are idempotent — running the same operation a
second time on the handle changes neither the ledger state nor the outcome, on
successes and failures alike. -/
theorem C5_commit_release_idempotent :
    (∀ l hd, (commit l hd).bind (fun x => commit x hd) = commit l hd) ∧
    (∀ l hd, (release l hd).bind (fun x => release x hd) = release l hd) := by
  constructor
  · intro l hd
    cases h : commit l hd with
    | ok l' => simpa [Except.bind] using commit_idem_aux l hd l' h
    | error e => simp [Except.bind]
  · intro l hd
    cases h : release l hd with
    | ok l' => simpa [Except.bind] using release_idem_aux l hd l' h
    | error e => simp [Except.bind]

/-! ## Route Scheduler and Capacity Planner

The tour service (src tour service file) delegates every route operation to a
tour repository that is not among the sources here; the scheduler below is
therefore modelled from the design document (§4.2–§4.4) over the schema's
`Routes`, `Destinations`, `Destination_Products`, `Trucks` and `Donations`
tables. -/

/-- Route/destination type: `Collect` or `Distribute` (schema booleans). -/
inductive RType
  | collect
  | distribute
deriving Repr, DecidableEq

/-- Route lifecycle states (spec §4.3). -/
inductive RStatus
  | planned
  | inProgress
  | completed
  | cancelled
deriving Repr, DecidableEq

/-- A `Routes` row plus its lifecycle status. -/
structure Route where
  id : Nat
  date : Nat
  rtype : RType
  truckId : Nat
  userId : Nat
  status : RStatus
deriving Repr, DecidableEq

/-- A `Destinations` row: owned by one route, with an address and a type. -/
structure Destination where
  id : Nat
  routeId : Nat
  addressId : Nat
  dtype : RType
deriving Repr, DecidableEq

/-- A `Destination_Products` row, with the stock-reservation handle the
scheduler holds for it on distribution routes. -/
structure DestProduct where
  id : Nat
  destId : Nat
  product : Nat
  qty : Nat
  resHandle : Option Nat
deriving Repr, DecidableEq

/-- A `Donations` row as the donation controller documents it: product,
quantity, optional route link, collected flag and optional collection date. -/
structure Donation where
  id : Nat
  product : Nat
  qty : Nat
  routeId : Option Nat
  collected : Bool
  collectionDate : Option Nat
deriving Repr, DecidableEq

/-- The scheduler error taxonomy (spec §7). -/
inductive SchedErr
  | conflict
  | typeMismatch
  | capacityExceeded
  | insufficientStock
  | invalidState
  | notFound
  | invalidArgument
deriving Repr, DecidableEq

/-- The scheduler state: the truck catalog (id, capacity), routes,
destinations, destination-products, donations, the stock ledger, and the next
fresh row id. -/
structure Sched where
  trucks : List (Nat × Nat)
  routes : List Route
  dests : List Destination
  dps : List DestProduct
  donations : List Donation
  ledger : Ledger
  nextId : Nat
deriving Repr, DecidableEq

/-- Whether a destination-product hangs below the route: some destination row
carries its `destId` and references the route. -/
def dpInRoute (dests : List Destination) (dp : DestProduct) (rid : Nat) : Bool :=
  dests.any fun d => d.id == dp.destId && d.routeId == rid

/-- Contribution of one destination-product to a route's total load. -/
def dpContrib (dests : List Destination) (rid : Nat) (dp : DestProduct) : Nat :=
  if dpInRoute dests dp rid then dp.qty else 0

/-- Total assigned quantity of a route: the sum of `Destination_Products`
quantities across the route's destinations (spec §4.2). -/
def routeLoad (dests : List Destination) (dps : List DestProduct) (rid : Nat) : Nat :=
  (dps.map (dpContrib dests rid)).sum

/-- Truck lookup by id (capacity in the second component). -/
def findTruck (trucks : List (Nat × Nat)) (tid : Nat) : Option (Nat × Nat) :=
  trucks.find? fun t => t.fst == tid

/-- Route lookup by id. -/
def findRoute (routes : List Route) (rid : Nat) : Option Route :=
  routes.find? fun r => r.id == rid

/-- Destination lookup by id. -/
def findDest (dests : List Destination) (did : Nat) : Option Destination :=
  dests.find? fun d => d.id == did

/-- Modelled from the spec: the double-booking test of `createRoute` — an
active (non-cancelled) route already uses the truck or the user on the
date. -/
def hasConflict (s : Sched) (date truckId userId : Nat) : Bool :=
  s.routes.any fun r =>
    r.status != .cancelled &&
      ((r.truckId == truckId && r.date == date) || (r.userId == userId && r.date == date))

/-- Modelled from the spec (§4.3 createRoute): fails with `Conflict` when an
active route exists for the truck or the user on the date; otherwise the route
starts in `Planned`.  Operations return the (possibly unchanged) state next to
the optional error. -/
def createRoute (s : Sched) (date : Nat) (ty : RType) (truckId userId : Nat) :
    Option SchedErr × Sched :=
  if hasConflict s date truckId userId then (some .conflict, s)
  else
    (none, { s with
      routes := s.routes ++ [⟨s.nextId, date, ty, truckId, userId, .planned⟩],
      nextId := s.nextId + 1 })

/-- Modelled from the spec (§4.3 addDestination): fails with `TypeMismatch`
when the given type differs from the route's type. -/
def addDestination (s : Sched) (rid : Nat) (addr : Nat) (ty : RType) :
    Option SchedErr × Sched :=
  match findRoute s.routes rid with
  | none => (some .notFound, s)
  | some r =>
    if ty ≠ r.rtype then (some .typeMismatch, s)
    else
      (none, { s with
        dests := s.dests ++ [⟨s.nextId, rid, addr, ty⟩],
        nextId := s.nextId + 1 })

/-- Modelled from the spec (§4.3 addProduct): for `Distribute` routes first
attempts the stock reservation in the caller-chosen zone (`InsufficientStock`
on failure, no mutation), then the capacity check against the hypothetical
post-mutation total (on failure the just-taken reservation is released and the
call fails with `CapacityExceeded`); only when both pass is the row persisted.
The caller picks the zone to draw from (spec §4.1); one zone per requirement
is modelled.  A zero quantity is rejected up front (§7 `InvalidArgument`). -/
def addProduct (s : Sched) (destId : Nat) (product : Nat) (zone : String) (qty : Nat) :
    Option SchedErr × Sched :=
  if qty = 0 then (some .invalidArgument, s)
  else
    match findDest s.dests destId with
    | none => (some .notFound, s)
    | some d =>
      match findRoute s.routes d.routeId with
      | none => (some .notFound, s)
      | some r =>
        match findTruck s.trucks r.truckId with
        | none => (some .notFound, s)
        | some t =>
          match r.rtype with
          | .distribute =>
            match reserve s.ledger product zone qty with
            | .error _ => (some .insufficientStock, s)
            | .ok (led1, h) =>
              if routeLoad s.dests s.dps r.id + qty ≤ t.snd then
                (none, { s with
                  ledger := led1,
                  dps := s.dps ++ [⟨s.nextId, destId, product, qty, some h⟩],
                  nextId := s.nextId + 1 })
              else
                match release led1 h with
                | .ok led2 => (some .capacityExceeded, { s with ledger := led2 })
                | .error _ => (some .capacityExceeded, { s with ledger := led1 })
          | .collect =>
            if routeLoad s.dests s.dps r.id + qty ≤ t.snd then
              (none, { s with
                dps := s.dps ++ [⟨s.nextId, destId, product, qty, none⟩],
                nextId := s.nextId + 1 })
            else (some .capacityExceeded, s)

/-- Modelled from the spec (§4.3 removeProduct): releases any associated
reservation and deletes the row; `NotFound` when the row does not exist. -/
def removeProduct (s : Sched) (dpId : Nat) : Option SchedErr × Sched :=
  match s.dps.find? (fun dp => dp.id == dpId) with
  | none => (some .notFound, s)
  | some dp =>
    let led :=
      match dp.resHandle with
      | some h =>
        match release s.ledger h with
        | .ok led' => led'
        | .error _ => s.ledger
      | none => s.ledger
    (none, { s with ledger := led, dps := s.dps.filter fun x => x.id != dpId })

/-- Modelled from the spec (§4.2 update-quantity mutation): the proposed new
quantity is validated against the hypothetical post-mutation total before the
row is written; a violating update is rejected with no state change.  §4.2
defines this mutation through the capacity check only, so no reservation
adjustment is modelled. -/
def updateQty (s : Sched) (dpId : Nat) (qty : Nat) : Option SchedErr × Sched :=
  if qty = 0 then (some .invalidArgument, s)
  else
    match s.dps.find? (fun dp => dp.id == dpId) with
    | none => (some .notFound, s)
    | some dp =>
      match findDest s.dests dp.destId with
      | none => (some .notFound, s)
      | some d =>
        match findRoute s.routes d.routeId with
        | none => (some .notFound, s)
        | some r =>
          match findTruck s.trucks r.truckId with
          | none => (some .notFound, s)
          | some t =>
            if routeLoad s.dests s.dps r.id - dp.qty + qty ≤ t.snd then
              (none, { s with
                dps := s.dps.map fun x => if x.id == dpId then { x with qty := qty } else x })
            else (some .capacityExceeded, s)

/-- Status rewrite of the route(s) recorded under an id. -/
def setRouteStatus (routes : List Route) (rid : Nat) (st : RStatus) : List Route :=
  routes.map fun x => if x.id == rid then { x with status := st } else x

/-- Modelled from the spec (§4.3 start): `Planned -> InProgress`, otherwise
`InvalidState`. -/
def startRoute (s : Sched) (rid : Nat) : Option SchedErr × Sched :=
  match findRoute s.routes rid with
  | none => (some .notFound, s)
  | some r =>
    match r.status with
    | .planned => (none, { s with routes := setRouteStatus s.routes rid .inProgress })
    | _ => (some .invalidState, s)

/-- The designated intake zone the Donation Reconciler credits into. -/
def intakeZone : String := "intake"

/-- Modelled from the spec (§4.4 reconcile): credits each linked donation's
(product, quantity) into the intake zone and marks it collected with the
completion date; a donation whose credit fails is recorded as an error and
skipped while the rest are still processed. -/
def reconcileAll (led : Ledger) (dons : List Donation) (rid : Nat) (date : Nat) :
    Ledger × List Donation :=
  match dons with
  | [] => (led, [])
  | dn :: rest =>
    if dn.routeId == some rid && !dn.collected then
      match credit led dn.product intakeZone dn.qty with
      | .ok led1 =>
        let next := reconcileAll led1 rest rid date
        (next.1, { dn with collected := true, collectionDate := some date } :: next.2)
      | .error _ =>
        let next := reconcileAll led rest rid date
        (next.1, dn :: next.2)
    else
      let next := reconcileAll led rest rid date
      (next.1, dn :: next.2)

/-- Commits the outstanding reservations tied to the route's
destination-products (spec §4.3 complete, Distribute case). -/
def commitRouteReservations (led : Ledger) (s : Sched) (rid : Nat) : Ledger :=
  (s.dps.filter fun dp => dpInRoute s.dests dp rid).foldl
    (fun acc dp =>
      match dp.resHandle with
      | some h =>
        match commit acc h with
        | .ok led' => led'
        | .error _ => acc
      | none => acc) led

/-- Releases the reservations tied to the route's destination-products (spec
§4.3 cancel). -/
def releaseRouteReservations (led : Ledger) (s : Sched) (rid : Nat) : Ledger :=
  (s.dps.filter fun dp => dpInRoute s.dests dp rid).foldl
    (fun acc dp =>
      match dp.resHandle with
      | some h =>
        match release acc h with
        | .ok led' => led'
        | .error _ => acc
      | none => acc) led

/-- Modelled from the spec (§4.3 complete): `InProgress -> Completed`; for
`Distribute` routes commits the route's outstanding reservations; for
`Collect` routes runs the Donation Reconciler with the completion date. -/
def completeRoute (s : Sched) (rid : Nat) (date : Nat) : Option SchedErr × Sched :=
  match findRoute s.routes rid with
  | none => (some .notFound, s)
  | some r =>
    match r.status with
    | .inProgress =>
      match r.rtype with
      | .distribute =>
        (none, { s with
          ledger := commitRouteReservations s.ledger s rid,
          routes := setRouteStatus s.routes rid .completed })
      | .collect =>
        (none, { s with
          ledger := (reconcileAll s.ledger s.donations rid date).1,
          donations := (reconcileAll s.ledger s.donations rid date).2,
          routes := setRouteStatus s.routes rid .completed })
    | _ => (some .invalidState, s)

/-- Modelled from the spec (§4.3 cancel): allowed from `Planned` or
`InProgress`; releases the route's reservations, unlinks its donations back to
pending, marks the route `Cancelled`. -/
def cancelRoute (s : Sched) (rid : Nat) : Option SchedErr × Sched :=
  match findRoute s.routes rid with
  | none => (some .notFound, s)
  | some r =>
    match r.status with
    | .planned | .inProgress =>
      (none, { s with
        ledger := releaseRouteReservations s.ledger s rid,
        donations := s.donations.map fun dn =>
          if dn.routeId == some rid then { dn with routeId := none } else dn,
        routes := setRouteStatus s.routes rid .cancelled })
    | _ => (some .invalidState, s)

/-- The scheduler operations of spec §4.3 plus the §4.2 quantity update. -/
inductive SOp
  | createRoute (date : Nat) (ty : RType) (truckId userId : Nat)
  | addDestination (rid addr : Nat) (ty : RType)
  | addProduct (destId product : Nat) (zone : String) (qty : Nat)
  | removeProduct (dpId : Nat)
  | updateQty (dpId qty : Nat)
  | start (rid : Nat)
  | complete (rid date : Nat)
  | cancel (rid : Nat)
deriving Repr, DecidableEq

/-- One scheduler operation against the state (the state component of the
result, failed operations included). -/
def applySOp (s : Sched) : SOp → Sched
  | .createRoute date ty t u => (createRoute s date ty t u).2
  | .addDestination rid addr ty => (addDestination s rid addr ty).2
  | .addProduct d p z q => (addProduct s d p z q).2
  | .removeProduct dpId => (removeProduct s dpId).2
  | .updateQty dpId q => (updateQty s dpId q).2
  | .start rid => (startRoute s rid).2
  | .complete rid date => (completeRoute s rid date).2
  | .cancel rid => (cancelRoute s rid).2

/-- A sequence of scheduler operations. -/
def runSOps (s : Sched) (ops : List SOp) : Sched :=
  ops.foldl applySOp s

/-- Id discipline of the scheduler state: every persisted id and reference is
below the fresh-id counter, and ids are pairwise distinct per table. -/
def IdsOk (s : Sched) : Prop :=
  (∀ r ∈ s.routes, r.id < s.nextId) ∧
  (∀ d ∈ s.dests, d.id < s.nextId ∧ d.routeId < s.nextId) ∧
  (∀ dp ∈ s.dps, dp.id < s.nextId ∧ dp.destId < s.nextId) ∧
  s.routes.Pairwise (fun a b => a.id ≠ b.id) ∧
  s.dests.Pairwise (fun a b => a.id ≠ b.id) ∧
  s.dps.Pairwise (fun a b => a.id ≠ b.id)

/-- Ledger handle discipline: recorded handles are below the fresh-handle
counter. -/
def LedgerWF (l : Ledger) : Prop :=
  ∀ r ∈ l.reservations, r.handle < l.nextHandle

/-- The capacity invariant of the claim: every route's total load is within
its truck's capacity. -/
def CapOk (s : Sched) : Prop :=
  ∀ r ∈ s.routes, ∀ t, findTruck s.trucks r.truckId = some t →
    routeLoad s.dests s.dps r.id ≤ t.snd

/-- The no-double-booking invariant of the claim: two non-cancelled routes
sharing a truck and date, or a user and date, are the same route. -/
def NoDouble (s : Sched) : Prop :=
  ∀ r1 ∈ s.routes, ∀ r2 ∈ s.routes,
    r1.status ≠ .cancelled → r2.status ≠ .cancelled →
    ((r1.truckId = r2.truckId ∧ r1.date = r2.date) ∨
      (r1.userId = r2.userId ∧ r1.date = r2.date)) →
    r1 = r2

/-- The destination-type invariant of the claim: every persisted destination's
type equals its route's type. -/
def TypeOk (s : Sched) : Prop :=
  ∀ d ∈ s.dests, ∀ r, findRoute s.routes d.routeId = some r → d.dtype = r.rtype

/-- The combined scheduler invariant, preserved by every operation. -/
def SchedInv (s : Sched) : Prop :=
  IdsOk s ∧ LedgerWF s.ledger ∧ CapOk s ∧ NoDouble s ∧ TypeOk s

theorem find?_append_left {α : Type} (l1 l2 : List α) (p : α → Bool) (a : α)
    (h : l1.find? p = some a) : (l1 ++ l2).find? p = some a := by
  induction l1 with
  | nil => simp [List.find?] at h
  | cons x rest ih =>
    cases hx : p x with
    | true =>
      rw [List.find?_cons_of_pos _ hx] at h
      rw [List.cons_append, List.find?_cons_of_pos _ hx]
      exact h
    | false =>
      rw [List.find?_cons_of_neg _ (by simp [hx])] at h
      rw [List.cons_append, List.find?_cons_of_neg _ (by simp [hx])]
      exact ih h

theorem find?_append_right {α : Type} (l1 l2 : List α) (p : α → Bool)
    (h : l1.find? p = none) : (l1 ++ l2).find? p = l2.find? p := by
  induction l1 with
  | nil => simp
  | cons x rest ih =>
    cases hx : p x with
    | true => rw [List.find?_cons_of_pos _ hx] at h; exact absurd h (by simp)
    | false =>
      rw [List.find?_cons_of_neg _ (by simp [hx])] at h
      rw [List.cons_append, List.find?_cons_of_neg _ (by simp [hx])]
      exact ih h

theorem dpInRoute_append_fresh (dests : List Destination) (d0 : Destination)
    (dp : DestProduct) (rid : Nat) (h : dp.destId ≠ d0.id) :
    dpInRoute (dests ++ [d0]) dp rid = dpInRoute dests dp rid := by
  unfold dpInRoute
  rw [List.any_append]
  have hne : (d0.id == dp.destId) = false := beq_eq_false_iff_ne.mpr fun hc => h hc.symm
  simp [hne]

theorem routeLoad_append_dest (dests : List Destination) (d0 : Destination)
    (dps : List DestProduct) (rid : Nat) (h : ∀ dp ∈ dps, dp.destId ≠ d0.id) :
    routeLoad (dests ++ [d0]) dps rid = routeLoad dests dps rid := by
  unfold routeLoad
  congr 1
  apply List.map_congr_left
  intro dp hdp
  unfold dpContrib
  rw [dpInRoute_append_fresh dests d0 dp rid (h dp hdp)]

theorem routeLoad_append_dp (dests : List Destination) (dps : List DestProduct)
    (dp0 : DestProduct) (rid : Nat) :
    routeLoad dests (dps ++ [dp0]) rid = routeLoad dests dps rid + dpContrib dests rid dp0 := by
  unfold routeLoad
  rw [List.map_append, List.sum_append]
  simp

theorem routeLoad_eq_zero (dests : List Destination) (dps : List DestProduct) (rid : Nat)
    (h : ∀ d ∈ dests, d.routeId ≠ rid) : routeLoad dests dps rid = 0 := by
  unfold routeLoad
  apply List.sum_eq_zero
  intro x hx
  obtain ⟨dp, _, rfl⟩ := List.mem_map.mp hx
  have hfalse : dpInRoute dests dp rid = false := by
    rw [← Bool.not_eq_true]
    intro hc
    unfold dpInRoute at hc
    obtain ⟨d, hd, hprop⟩ := List.any_eq_true.mp hc
    rw [Bool.and_eq_true, beq_iff_eq, beq_iff_eq] at hprop
    exact h d hd hprop.2
  simp [dpContrib, hfalse]

theorem routeLoad_filter_le (dests : List Destination) (dps : List DestProduct)
    (p : DestProduct → Bool) (rid : Nat) :
    routeLoad dests (dps.filter p) rid ≤ routeLoad dests dps rid := by
  unfold routeLoad
  induction dps with
  | nil => simp
  | cons dp rest ih =>
    rw [List.filter_cons]
    by_cases hp : p dp
    · rw [if_pos (by simpa using hp)]
      simp only [List.map_cons, List.sum_cons]
      exact Nat.add_le_add_left ih _
    · rw [if_neg (by simpa using hp)]
      simp only [List.map_cons, List.sum_cons]
      exact le_trans ih (Nat.le_add_left _ _)

theorem dpContrib_le_routeLoad (dests : List Destination) (dps : List DestProduct)
    (dp0 : DestProduct) (rid : Nat) (h : dp0 ∈ dps) :
    dpContrib dests rid dp0 ≤ routeLoad dests dps rid := by
  unfold routeLoad
  exact List.single_le_sum (fun x _ => Nat.zero_le x) _ (List.mem_map_of_mem _ h)

theorem dpInRoute_of_unique (dests : List Destination) (dp : DestProduct) (rid : Nat)
    (d : Destination) (hpw : dests.Pairwise fun a b => a.id ≠ b.id)
    (hfind : findDest dests dp.destId = some d) :
    dpInRoute dests dp rid = (d.routeId == rid) := by
  have hd_mem : d ∈ dests := List.mem_of_find?_eq_some hfind
  have hd_id : d.id = dp.destId := by
    have := List.find?_some hfind
    simpa using this
  cases hrid : (d.routeId == rid) with
  | true =>
    rw [beq_iff_eq] at hrid
    apply List.any_eq_true.mpr
    exact ⟨d, hd_mem, by simp [hd_id, hrid]⟩
  | false =>
    rw [← Bool.not_eq_true]
    intro hc
    obtain ⟨d', hd', hprop⟩ := List.any_eq_true.mp hc
    rw [Bool.and_eq_true, beq_iff_eq, beq_iff_eq] at hprop
    have hsame : d' = d := by
      by_contra hne
      have hsym : Symmetric fun a b : Destination => a.id ≠ b.id :=
        fun x y hxy => hxy.symm
      exact (hpw.forall hsym) hd' hd_mem hne (hprop.1.trans hd_id.symm)
    rw [hsame] at hprop
    rw [beq_iff_eq.mpr hprop.2] at hrid
    exact absurd hrid (by simp)

theorem routeLoad_map_update (dests : List Destination) (dps : List DestProduct)
    (dpId q rid : Nat) (dp0 : DestProduct)
    (hpw : dps.Pairwise fun a b => a.id ≠ b.id)
    (hfind : dps.find? (fun x => x.id == dpId) = some dp0) :
    routeLoad dests (dps.map fun x => if x.id == dpId then { x with qty := q } else x) rid +
        dpContrib dests rid dp0 =
      routeLoad dests dps rid + dpContrib dests rid { dp0 with qty := q } := by
  induction dps with
  | nil => simp [List.find?] at hfind
  | cons x rest ih =>
    rw [List.pairwise_cons] at hpw
    cases hx : (x.id == dpId) with
    | true =>
      rw [List.find?_cons_of_pos (p := fun y => y.id == dpId) rest hx] at hfind
      cases hfind
      have hrest : rest.map (fun y => if y.id == dpId then { y with qty := q } else y) = rest := by
        apply List.map_congr_left ?_ |>.trans (List.map_id rest)
        intro y hy
        have : (y.id == dpId) = false :=
          beq_eq_false_iff_ne.mpr fun hc => hpw.1 y hy (beq_iff_eq.mp hx ▸ hc ▸ rfl)
        simp [this]
      unfold routeLoad
      simp only [List.map_cons, List.sum_cons, hx, if_true, hrest]
      omega
    | false =>
      rw [List.find?_cons_of_neg (p := fun y => y.id == dpId) rest (by simp [hx])] at hfind
      unfold routeLoad at ih ⊢
      simp only [List.map_cons, List.sum_cons, hx, Bool.false_eq_true, if_false]
      have := ih hpw.2 hfind
      omega

theorem find_unique {α : Type} (key : α → Nat) (l : List α) (k : Nat) (a0 a : α)
    (hpw : l.Pairwise fun x y => key x ≠ key y)
    (hfind : l.find? (fun x => key x == k) = some a0)
    (ha : a ∈ l) (hk : key a = k) : a = a0 := by
  have h0mem : a0 ∈ l := List.mem_of_find?_eq_some hfind
  have h0k : key a0 = k := by simpa using List.find?_some hfind
  by_contra hne
  have hsym : Symmetric fun x y : α => key x ≠ key y := fun x y hxy => hxy.symm
  exact (hpw.forall hsym) ha h0mem hne (hk.trans h0k.symm)

theorem findRoute_setRouteStatus (routes : List Route) (rid rid' : Nat) (st : RStatus) :
    findRoute (setRouteStatus routes rid st) rid' =
      (findRoute routes rid').map fun x => if x.id == rid then { x with status := st } else x := by
  unfold findRoute setRouteStatus
  induction routes with
  | nil => simp
  | cons r rest ih =>
    have hid : (if (r.id == rid) = true then { r with status := st } else r).id = r.id := by
      by_cases h2 : (r.id == rid) = true <;> simp [h2]
    by_cases hr : (r.id == rid') = true
    · have hfr : ((if (r.id == rid) = true then { r with status := st } else r).id == rid') =
          true := by rw [hid]; exact hr
      rw [List.map_cons, List.find?_cons_of_pos (p := fun x : Route => x.id == rid') _ hfr,
        List.find?_cons_of_pos (p := fun x : Route => x.id == rid') _ hr]
      rfl
    · have hfr : ((if (r.id == rid) = true then { r with status := st } else r).id == rid') =
          false := by rw [hid]; simpa using hr
      rw [List.map_cons,
        List.find?_cons_of_neg (p := fun x : Route => x.id == rid') _
          (by
            intro hc
            simp only [] at hc
            rw [hfr] at hc
            exact absurd hc (by simp)),
        List.find?_cons_of_neg (p := fun x : Route => x.id == rid') _ (by simpa using hr)]
      exact ih

theorem reserve_wf (l : Ledger) (p : Nat) (z : String) (q : Nat) (l' : Ledger) (hn : Nat)
    (hwf : LedgerWF l) (h : reserve l p z q = .ok (l', hn)) : LedgerWF l' := by
  unfold reserve at h
  split at h
  case isTrue =>
    cases h
    intro r hr
    rcases List.mem_cons.mp hr with rfl | hr
    · exact Nat.lt_succ_self _
    · exact Nat.lt_succ_of_lt (hwf r hr)
  case isFalse => exact absurd h (by simp)

theorem commit_wf (l : Ledger) (hd : Nat) (l' : Ledger)
    (hwf : LedgerWF l) (h : commit l hd = .ok l') : LedgerWF l' := by
  unfold commit at h
  split at h
  case h_1 => exact absurd h (by simp)
  case h_2 r hfind =>
    split at h
    case h_1 =>
      cases h
      intro r' hr'
      obtain ⟨a, ha, rfl⟩ := List.mem_map.mp hr'
      by_cases hid : (a.handle == hd) = true <;> simp [hid] <;> exact hwf a ha
    case h_2 =>
      cases h
      exact hwf
    case h_3 => exact absurd h (by simp)

theorem release_wf (l : Ledger) (hd : Nat) (l' : Ledger)
    (hwf : LedgerWF l) (h : release l hd = .ok l') : LedgerWF l' := by
  unfold release at h
  split at h
  case h_1 => exact absurd h (by simp)
  case h_2 r hfind =>
    split at h
    case h_1 =>
      cases h
      intro r' hr'
      obtain ⟨a, ha, rfl⟩ := List.mem_map.mp hr'
      by_cases hid : (a.handle == hd) = true <;> simp [hid] <;> exact hwf a ha
    case h_2 =>
      cases h
      exact hwf
    case h_3 => exact absurd h (by simp)

theorem credit_wf (l : Ledger) (p : Nat) (z : String) (q : Nat) (l' : Ledger)
    (hwf : LedgerWF l) (h : credit l p z q = .ok l') : LedgerWF l' := by
  unfold credit at h
  split at h
  case isTrue =>
    cases h
    exact hwf
  case isFalse => exact absurd h (by simp)

theorem commitRouteReservations_wf (led : Ledger) (s : Sched) (rid : Nat)
    (hwf : LedgerWF led) : LedgerWF (commitRouteReservations led s rid) := by
  unfold commitRouteReservations
  generalize (s.dps.filter fun dp => dpInRoute s.dests dp rid) = xs
  induction xs generalizing led with
  | nil => exact hwf
  | cons dp rest ih =>
    rw [List.foldl_cons]
    apply ih
    cases hh : dp.resHandle with
    | none => exact hwf
    | some hdl =>
      simp only
      cases hc : commit led hdl with
      | ok led' => exact commit_wf led hdl led' hwf hc
      | error _ => exact hwf

theorem releaseRouteReservations_wf (led : Ledger) (s : Sched) (rid : Nat)
    (hwf : LedgerWF led) : LedgerWF (releaseRouteReservations led s rid) := by
  unfold releaseRouteReservations
  generalize (s.dps.filter fun dp => dpInRoute s.dests dp rid) = xs
  induction xs generalizing led with
  | nil => exact hwf
  | cons dp rest ih =>
    rw [List.foldl_cons]
    apply ih
    cases hh : dp.resHandle with
    | none => exact hwf
    | some hdl =>
      simp only
      cases hc : release led hdl with
      | ok led' => exact release_wf led hdl led' hwf hc
      | error _ => exact hwf

theorem reconcileAll_wf (led : Ledger) (dons : List Donation) (rid date : Nat)
    (hwf : LedgerWF led) : LedgerWF (reconcileAll led dons rid date).1 := by
  induction dons generalizing led with
  | nil => exact hwf
  | cons dn rest ih =>
    unfold reconcileAll
    by_cases hl : (dn.routeId == some rid && !dn.collected) = true
    · rw [if_pos hl]
      cases hc : credit led dn.product intakeZone dn.qty with
      | ok led1 => exact ih led1 (credit_wf led dn.product intakeZone dn.qty led1 hwf hc)
      | error _ => exact ih led hwf
    · rw [if_neg hl]
      exact ih led hwf

theorem hasConflict_iff (s : Sched) (date tid uid : Nat) :
    hasConflict s date tid uid = true ↔
      ∃ r ∈ s.routes, r.status ≠ .cancelled ∧
        ((r.truckId = tid ∧ r.date = date) ∨ (r.userId = uid ∧ r.date = date)) := by
  unfold hasConflict
  rw [List.any_eq_true]
  constructor
  · rintro ⟨r, hr, hprop⟩
    rw [Bool.and_eq_true, Bool.or_eq_true, Bool.and_eq_true, Bool.and_eq_true] at hprop
    refine ⟨r, hr, ?_, ?_⟩
    · simpa using hprop.1
    · rcases hprop.2 with h | h
      · exact Or.inl ⟨beq_iff_eq.mp h.1, beq_iff_eq.mp h.2⟩
      · exact Or.inr ⟨beq_iff_eq.mp h.1, beq_iff_eq.mp h.2⟩
  · rintro ⟨r, hr, hst, hcase⟩
    refine ⟨r, hr, ?_⟩
    rw [Bool.and_eq_true, Bool.or_eq_true, Bool.and_eq_true, Bool.and_eq_true]
    refine ⟨by simpa using hst, ?_⟩
    rcases hcase with h | h
    · exact Or.inl ⟨beq_iff_eq.mpr h.1, beq_iff_eq.mpr h.2⟩
    · exact Or.inr ⟨beq_iff_eq.mpr h.1, beq_iff_eq.mpr h.2⟩

theorem inv_createRoute (s : Sched) (date : Nat) (ty : RType) (tid uid : Nat)
    (hinv : SchedInv s) : SchedInv (createRoute s date ty tid uid).2 := by
  obtain ⟨⟨hrid, hdid, hdpid, hrpw, hdpw, hdppw⟩, hlwf, hcap, hnd, hty⟩ := hinv
  unfold createRoute
  split
  case isTrue => exact ⟨⟨hrid, hdid, hdpid, hrpw, hdpw, hdppw⟩, hlwf, hcap, hnd, hty⟩
  case isFalse hconf =>
    refine ⟨⟨?_, ?_, ?_, ?_, hdpw, hdppw⟩, hlwf, ?_, ?_, ?_⟩
    · intro r hr
      rcases List.mem_append.mp hr with hr | hr
      · exact Nat.lt_succ_of_lt (hrid r hr)
      · simp only [List.mem_singleton] at hr
        subst hr
        exact Nat.lt_succ_self _
    · intro d hd
      exact ⟨Nat.lt_succ_of_lt (hdid d hd).1, Nat.lt_succ_of_lt (hdid d hd).2⟩
    · intro dp hdp
      exact ⟨Nat.lt_succ_of_lt (hdpid dp hdp).1, Nat.lt_succ_of_lt (hdpid dp hdp).2⟩
    · rw [List.pairwise_append]
      refine ⟨hrpw, List.pairwise_singleton _ _, ?_⟩
      intro a ha b hb
      simp only [List.mem_singleton] at hb
      subst hb
      exact Nat.ne_of_lt (hrid a ha)
    · intro r hr t hft
      rcases List.mem_append.mp hr with hr | hr
      · exact hcap r hr t hft
      · simp only [List.mem_singleton] at hr
        subst hr
        rw [show routeLoad s.dests s.dps
            (⟨s.nextId, date, ty, tid, uid, .planned⟩ : Route).id = 0 from
          routeLoad_eq_zero s.dests s.dps s.nextId
            (fun d hd => Nat.ne_of_lt (hdid d hd).2)]
        exact Nat.zero_le _
    · intro r1 hr1 r2 hr2 hs1 hs2 hover
      rcases List.mem_append.mp hr1 with hr1 | hr1 <;>
        rcases List.mem_append.mp hr2 with hr2 | hr2
      · exact hnd r1 hr1 r2 hr2 hs1 hs2 hover
      · simp only [List.mem_singleton] at hr2
        subst hr2
        exact absurd ((hasConflict_iff s date tid uid).mpr ⟨r1, hr1, hs1, hover⟩) hconf
      · simp only [List.mem_singleton] at hr1
        subst hr1
        refine absurd ((hasConflict_iff s date tid uid).mpr ⟨r2, hr2, hs2, ?_⟩) hconf
        rcases hover with ⟨h1, h2⟩ | ⟨h1, h2⟩
        · exact Or.inl ⟨h1.symm, h2.symm⟩
        · exact Or.inr ⟨h1.symm, h2.symm⟩
      · simp only [List.mem_singleton] at hr1 hr2
        subst hr1
        subst hr2
        rfl
    · intro d hd r hfr
      cases hfr0 : findRoute s.routes d.routeId with
      | some r0 =>
        have heq : findRoute
            (s.routes ++ [⟨s.nextId, date, ty, tid, uid, .planned⟩]) d.routeId = some r0 :=
          find?_append_left _ _ _ _ hfr0
        have hrr : r = r0 := Option.some.inj (hfr.symm.trans heq)
        rw [hrr]
        exact hty d hd r0 hfr0
      | none =>
        exfalso
        have heq : findRoute
            (s.routes ++ [⟨s.nextId, date, ty, tid, uid, .planned⟩]) d.routeId = none := by
          unfold findRoute at hfr0 ⊢
          rw [find?_append_right _ _ _ hfr0]
          have hne : ((⟨s.nextId, date, ty, tid, uid, .planned⟩ : Route).id == d.routeId) =
              false := beq_eq_false_iff_ne.mpr (Nat.ne_of_gt (hdid d hd).2)
          simp [List.find?, hne]
        exact absurd (hfr.symm.trans heq) (by simp)

theorem inv_addDestination (s : Sched) (rid addr : Nat) (ty : RType)
    (hinv : SchedInv s) : SchedInv (addDestination s rid addr ty).2 := by
  obtain ⟨⟨hrid, hdid, hdpid, hrpw, hdpw, hdppw⟩, hlwf, hcap, hnd, hty⟩ := hinv
  unfold addDestination
  split
  case h_1 => exact ⟨⟨hrid, hdid, hdpid, hrpw, hdpw, hdppw⟩, hlwf, hcap, hnd, hty⟩
  case h_2 r hfr =>
    split
    case isTrue => exact ⟨⟨hrid, hdid, hdpid, hrpw, hdpw, hdppw⟩, hlwf, hcap, hnd, hty⟩
    case isFalse htyeq =>
      have hr_mem : r ∈ s.routes := List.mem_of_find?_eq_some hfr
      have hr_id : r.id = rid := by
        have := List.find?_some hfr
        simpa using this
      have hrid_lt : rid < s.nextId := hr_id ▸ hrid r hr_mem
      have hload : ∀ rid', routeLoad (s.dests ++ [⟨s.nextId, rid, addr, ty⟩]) s.dps rid' =
          routeLoad s.dests s.dps rid' := by
        intro rid'
        exact routeLoad_append_dest s.dests _ s.dps rid'
          (fun dp hdp => Nat.ne_of_lt (hdpid dp hdp).2)
      refine ⟨⟨?_, ?_, ?_, hrpw, ?_, hdppw⟩, hlwf, ?_, hnd, ?_⟩
      · intro x hx
        exact Nat.lt_succ_of_lt (hrid x hx)
      · intro d hd
        rcases List.mem_append.mp hd with hd | hd
        · exact ⟨Nat.lt_succ_of_lt (hdid d hd).1, Nat.lt_succ_of_lt (hdid d hd).2⟩
        · simp only [List.mem_singleton] at hd
          subst hd
          exact ⟨Nat.lt_succ_self _, Nat.lt_succ_of_lt hrid_lt⟩
      · intro dp hdp
        exact ⟨Nat.lt_succ_of_lt (hdpid dp hdp).1, Nat.lt_succ_of_lt (hdpid dp hdp).2⟩
      · rw [List.pairwise_append]
        refine ⟨hdpw, List.pairwise_singleton _ _, ?_⟩
        intro a ha b hb
        simp only [List.mem_singleton] at hb
        subst hb
        exact Nat.ne_of_lt (hdid a ha).1
      · intro x hx t hft
        rw [hload x.id]
        exact hcap x hx t hft
      · intro d hd r' hfr'
        rcases List.mem_append.mp hd with hd | hd
        · exact hty d hd r' hfr'
        · simp only [List.mem_singleton] at hd
          subst hd
          have hrr : r' = r := Option.some.inj (hfr'.symm.trans hfr)
          rw [hrr]
          exact not_not.mp (fun hc => htyeq hc)

theorem capok_after_append (s : Sched) (destId product qty : Nat) (rh : Option Nat)
    (d : Destination) (r : Route) (t : Nat × Nat)
    (hdpw : s.dests.Pairwise fun a b => a.id ≠ b.id)
    (hrpw : s.routes.Pairwise fun a b => a.id ≠ b.id)
    (hfd : findDest s.dests destId = some d)
    (hfr : findRoute s.routes d.routeId = some r)
    (hft : findTruck s.trucks r.truckId = some t)
    (hcap : CapOk s)
    (hguard : routeLoad s.dests s.dps r.id + qty ≤ t.snd) :
    ∀ x ∈ s.routes, ∀ t', findTruck s.trucks x.truckId = some t' →
      routeLoad s.dests (s.dps ++ [⟨s.nextId, destId, product, qty, rh⟩]) x.id ≤ t'.snd := by
  intro x hx t' hft'
  rw [routeLoad_append_dp]
  have hcontrib : dpContrib s.dests x.id ⟨s.nextId, destId, product, qty, rh⟩ =
      if (d.routeId == x.id) = true then qty else 0 := by
    unfold dpContrib
    rw [dpInRoute_of_unique s.dests ⟨s.nextId, destId, product, qty, rh⟩ x.id d hdpw hfd]
  rw [hcontrib]
  by_cases hm : (d.routeId == x.id) = true
  · rw [if_pos hm]
    have hx_r : x = r :=
      find_unique Route.id s.routes d.routeId r x hrpw hfr hx (beq_iff_eq.mp hm).symm
    have htt : t' = t := by
      rw [hx_r] at hft'
      exact Option.some.inj (hft'.symm.trans hft)
    rw [hx_r, htt]
    exact hguard
  · rw [if_neg hm]
    rw [Nat.add_zero]
    exact hcap x hx t' hft'

theorem inv_addProduct (s : Sched) (destId product : Nat) (zone : String) (qty : Nat)
    (hinv : SchedInv s) : SchedInv (addProduct s destId product zone qty).2 := by
  obtain ⟨⟨hrid, hdid, hdpid, hrpw, hdpw, hdppw⟩, hlwf, hcap, hnd, hty⟩ := hinv
  have hinv0 : SchedInv s := ⟨⟨hrid, hdid, hdpid, hrpw, hdpw, hdppw⟩, hlwf, hcap, hnd, hty⟩
  unfold addProduct
  split
  case isTrue => exact hinv0
  case isFalse hqty =>
    split
    case h_1 => exact hinv0
    case h_2 d hfd =>
      split
      case h_1 => exact hinv0
      case h_2 r hfr =>
        split
        case h_1 => exact hinv0
        case h_2 t hft =>
          have hd_mem : d ∈ s.dests := List.mem_of_find?_eq_some hfd
          have hd_id : d.id = destId := by
            have := List.find?_some hfd
            simpa using this
          have hdest_lt : destId < s.nextId := hd_id ▸ (hdid d hd_mem).1
          split
          case h_1 hrty =>
            split
            case h_1 => exact hinv0
            case h_2 led1 hh hres =>
              split
              case isTrue hguard =>
                refine ⟨⟨?_, ?_, ?_, hrpw, hdpw, ?_⟩, ?_, ?_, hnd, hty⟩
                · intro x hx
                  exact Nat.lt_succ_of_lt (hrid x hx)
                · intro x hx
                  exact ⟨Nat.lt_succ_of_lt (hdid x hx).1, Nat.lt_succ_of_lt (hdid x hx).2⟩
                · intro dp hdp
                  rcases List.mem_append.mp hdp with hdp | hdp
                  · exact ⟨Nat.lt_succ_of_lt (hdpid dp hdp).1,
                      Nat.lt_succ_of_lt (hdpid dp hdp).2⟩
                  · simp only [List.mem_singleton] at hdp
                    subst hdp
                    exact ⟨Nat.lt_succ_self _, Nat.lt_succ_of_lt hdest_lt⟩
                · rw [List.pairwise_append]
                  refine ⟨hdppw, List.pairwise_singleton _ _, ?_⟩
                  intro a ha b hb
                  simp only [List.mem_singleton] at hb
                  subst hb
                  exact Nat.ne_of_lt (hdpid a ha).1
                · exact reserve_wf s.ledger product zone qty led1 hh hlwf hres
                · intro x hx t' hft'
                  exact capok_after_append s destId product qty (some hh) d r t
                    hdpw hrpw hfd hfr hft hcap hguard x hx t' hft'
              case isFalse hguard =>
                split
                case h_1 led2 hrel =>
                  exact ⟨⟨hrid, hdid, hdpid, hrpw, hdpw, hdppw⟩,
                    release_wf led1 hh led2
                      (reserve_wf s.ledger product zone qty led1 hh hlwf hres) hrel,
                    hcap, hnd, hty⟩
                case h_2 =>
                  exact ⟨⟨hrid, hdid, hdpid, hrpw, hdpw, hdppw⟩,
                    reserve_wf s.ledger product zone qty led1 hh hlwf hres, hcap, hnd, hty⟩
          case h_2 hrty =>
            split
            case isTrue hguard =>
              refine ⟨⟨?_, ?_, ?_, hrpw, hdpw, ?_⟩, hlwf, ?_, hnd, hty⟩
              · intro x hx
                exact Nat.lt_succ_of_lt (hrid x hx)
              · intro x hx
                exact ⟨Nat.lt_succ_of_lt (hdid x hx).1, Nat.lt_succ_of_lt (hdid x hx).2⟩
              · intro dp hdp
                rcases List.mem_append.mp hdp with hdp | hdp
                · exact ⟨Nat.lt_succ_of_lt (hdpid dp hdp).1,
                    Nat.lt_succ_of_lt (hdpid dp hdp).2⟩
                · simp only [List.mem_singleton] at hdp
                  subst hdp
                  exact ⟨Nat.lt_succ_self _, Nat.lt_succ_of_lt hdest_lt⟩
              · rw [List.pairwise_append]
                refine ⟨hdppw, List.pairwise_singleton _ _, ?_⟩
                intro a ha b hb
                simp only [List.mem_singleton] at hb
                subst hb
                exact Nat.ne_of_lt (hdpid a ha).1
              · intro x hx t' hft'
                exact capok_after_append s destId product qty none d r t
                  hdpw hrpw hfd hfr hft hcap hguard x hx t' hft'
            case isFalse => exact hinv0

theorem inv_removeProduct (s : Sched) (dpId : Nat) (hinv : SchedInv s) :
    SchedInv (removeProduct s dpId).2 := by
  obtain ⟨⟨hrid, hdid, hdpid, hrpw, hdpw, hdppw⟩, hlwf, hcap, hnd, hty⟩ := hinv
  have hinv0 : SchedInv s := ⟨⟨hrid, hdid, hdpid, hrpw, hdpw, hdppw⟩, hlwf, hcap, hnd, hty⟩
  unfold removeProduct
  split
  case h_1 => exact hinv0
  case h_2 dp hfdp =>
    refine ⟨⟨hrid, hdid, ?_, hrpw, hdpw, ?_⟩, ?_, ?_, hnd, hty⟩
    · intro x hx
      exact hdpid x (List.mem_of_mem_filter hx)
    · exact hdppw.sublist (List.filter_sublist _)
    · cases hh : dp.resHandle with
      | none => exact hlwf
      | some hdl =>
        show LedgerWF (match release s.ledger hdl with
          | Except.ok led' => led'
          | Except.error _ => s.ledger)
        cases hr : release s.ledger hdl with
        | ok led' => exact release_wf s.ledger hdl led' hlwf hr
        | error _ => exact hlwf
    · intro x hx t hft
      exact le_trans (routeLoad_filter_le _ _ _ _) (hcap x hx t hft)

theorem inv_updateQty (s : Sched) (dpId qty : Nat) (hinv : SchedInv s) :
    SchedInv (updateQty s dpId qty).2 := by
  obtain ⟨⟨hrid, hdid, hdpid, hrpw, hdpw, hdppw⟩, hlwf, hcap, hnd, hty⟩ := hinv
  have hinv0 : SchedInv s := ⟨⟨hrid, hdid, hdpid, hrpw, hdpw, hdppw⟩, hlwf, hcap, hnd, hty⟩
  unfold updateQty
  split
  case isTrue => exact hinv0
  case isFalse hq =>
    split
    case h_1 => exact hinv0
    case h_2 dp hfdp =>
      split
      case h_1 => exact hinv0
      case h_2 d hfd =>
        split
        case h_1 => exact hinv0
        case h_2 r hfr =>
          split
          case h_1 => exact hinv0
          case h_2 t hft =>
            split
            case isFalse => exact hinv0
            case isTrue hguard =>
              have hmem : dp ∈ s.dps := List.mem_of_find?_eq_some hfdp
              refine ⟨⟨hrid, hdid, ?_, hrpw, hdpw, ?_⟩, hlwf, ?_, hnd, hty⟩
              · intro x hx
                obtain ⟨a, ha, rfl⟩ := List.mem_map.mp hx
                by_cases hid : (a.id == dpId) = true <;> simp [hid] <;> exact hdpid a ha
              · rw [List.pairwise_map]
                apply hdppw.imp
                intro a b hab
                by_cases ha2 : (a.id == dpId) = true <;> by_cases hb2 : (b.id == dpId) = true <;>
                  simp [ha2, hb2] <;> exact hab
              · intro x hx t' hft'
                show routeLoad s.dests
                  (s.dps.map fun y => if y.id == dpId then { y with qty := qty } else y) x.id ≤
                    t'.snd
                have hkey := routeLoad_map_update s.dests s.dps dpId qty x.id dp hdppw hfdp
                have hin : dpInRoute s.dests dp x.id = (d.routeId == x.id) :=
                  dpInRoute_of_unique s.dests dp x.id d hdpw hfd
                by_cases hm : (d.routeId == x.id) = true
                · have hx_r : x = r :=
                    find_unique Route.id s.routes d.routeId r x hrpw hfr hx
                      (beq_iff_eq.mp hm).symm
                  have htt : t' = t := by
                    rw [hx_r] at hft'
                    exact Option.some.inj (hft'.symm.trans hft)
                  have hc1 : dpContrib s.dests x.id dp = dp.qty := by
                    unfold dpContrib
                    rw [hin, if_pos hm]
                  have hc2 : dpContrib s.dests x.id { dp with qty := qty } = qty := by
                    unfold dpContrib
                    rw [show dpInRoute s.dests { dp with qty := qty } x.id =
                      (d.routeId == x.id) from hin, if_pos hm]
                  have hle : dp.qty ≤ routeLoad s.dests s.dps x.id := by
                    have hcl := dpContrib_le_routeLoad s.dests s.dps dp x.id hmem
                    rw [hc1] at hcl
                    exact hcl
                  have hguard2 : routeLoad s.dests s.dps x.id - dp.qty + qty ≤ t'.snd := by
                    rw [hx_r, htt]
                    exact hguard
                  rw [hc1, hc2] at hkey
                  omega
                · have hc1 : dpContrib s.dests x.id dp = 0 := by
                    unfold dpContrib
                    rw [hin, if_neg hm]
                  have hc2 : dpContrib s.dests x.id { dp with qty := qty } = 0 := by
                    unfold dpContrib
                    rw [show dpInRoute s.dests { dp with qty := qty } x.id =
                      (d.routeId == x.id) from hin, if_neg hm]
                  rw [hc1, hc2] at hkey
                  have hcx := hcap x hx t' hft'
                  omega

theorem setStatus_fields (x : Route) (rid : Nat) (st : RStatus) :
    (if (x.id == rid) = true then { x with status := st } else x).id = x.id ∧
    (if (x.id == rid) = true then { x with status := st } else x).truckId = x.truckId ∧
    (if (x.id == rid) = true then { x with status := st } else x).userId = x.userId ∧
    (if (x.id == rid) = true then { x with status := st } else x).date = x.date ∧
    (if (x.id == rid) = true then { x with status := st } else x).rtype = x.rtype := by
  by_cases h : (x.id == rid) = true <;> simp [h]

theorem idsok_after_setStatus (s : Sched) (rid : Nat) (st : RStatus) (led : Ledger)
    (dons : List Donation) (hids : IdsOk s) :
    IdsOk ⟨s.trucks, setRouteStatus s.routes rid st, s.dests, s.dps, dons, led, s.nextId⟩ := by
  obtain ⟨hrid, hdid, hdpid, hrpw, hdpw, hdppw⟩ := hids
  refine ⟨?_, hdid, hdpid, ?_, hdpw, hdppw⟩
  · intro x hx
    obtain ⟨a, ha, rfl⟩ := List.mem_map.mp hx
    rw [(setStatus_fields a rid st).1]
    exact hrid a ha
  · show List.Pairwise (fun a b : Route => a.id ≠ b.id) (setRouteStatus s.routes rid st)
    unfold setRouteStatus
    rw [List.pairwise_map]
    apply hrpw.imp
    intro a b hab
    rw [(setStatus_fields a rid st).1, (setStatus_fields b rid st).1]
    exact hab

theorem capok_after_setStatus (s : Sched) (rid : Nat) (st : RStatus) (led : Ledger)
    (dons : List Donation) (hcap : CapOk s) :
    CapOk ⟨s.trucks, setRouteStatus s.routes rid st, s.dests, s.dps, dons, led, s.nextId⟩ := by
  intro x hx t hft
  obtain ⟨a, ha, rfl⟩ := List.mem_map.mp hx
  obtain ⟨hid, htr, _, _, _⟩ := setStatus_fields a rid st
  rw [hid]
  rw [htr] at hft
  exact hcap a ha t hft

theorem typeok_after_setStatus (s : Sched) (rid : Nat) (st : RStatus) (led : Ledger)
    (dons : List Donation) (hty : TypeOk s) :
    TypeOk ⟨s.trucks, setRouteStatus s.routes rid st, s.dests, s.dps, dons, led, s.nextId⟩ := by
  intro d hd r hfr
  have hfr' : findRoute (setRouteStatus s.routes rid st) d.routeId = some r := hfr
  rw [findRoute_setRouteStatus] at hfr'
  cases hfr0 : findRoute s.routes d.routeId with
  | none =>
    rw [hfr0] at hfr'
    exact absurd hfr' (by simp)
  | some r0 =>
    rw [hfr0] at hfr'
    have hr : r = if (r0.id == rid) = true then { r0 with status := st } else r0 :=
      (Option.some.inj hfr').symm
    rw [hr, (setStatus_fields r0 rid st).2.2.2.2]
    exact hty d hd r0 hfr0

theorem nodouble_after_cancelStatus (s : Sched) (rid : Nat) (led : Ledger)
    (dons : List Donation) (hnd : NoDouble s) :
    NoDouble ⟨s.trucks, setRouteStatus s.routes rid .cancelled, s.dests, s.dps, dons, led,
      s.nextId⟩ := by
  intro r1 h1 r2 h2 hs1 hs2 hover
  obtain ⟨a1, ha1, rfl⟩ := List.mem_map.mp h1
  obtain ⟨a2, ha2, rfl⟩ := List.mem_map.mp h2
  have e1 : (if (a1.id == rid) = true then { a1 with status := RStatus.cancelled } else a1) =
      a1 := by
    by_cases h : (a1.id == rid) = true
    · exact absurd (by simp [h]) hs1
    · simp [h]
  have e2 : (if (a2.id == rid) = true then { a2 with status := RStatus.cancelled } else a2) =
      a2 := by
    by_cases h : (a2.id == rid) = true
    · exact absurd (by simp [h]) hs2
    · simp [h]
  rw [e1] at hs1 hover ⊢
  rw [e2] at hs2 hover ⊢
  exact hnd a1 ha1 a2 ha2 hs1 hs2 hover

theorem nodouble_after_statusStep (s : Sched) (rid : Nat) (st : RStatus) (led : Ledger)
    (dons : List Donation) (hstep : st ≠ .cancelled) (r0 : Route)
    (hfr : findRoute s.routes rid = some r0) (hr0 : r0.status ≠ .cancelled)
    (hrpw : s.routes.Pairwise fun a b => a.id ≠ b.id) (hnd : NoDouble s) :
    NoDouble ⟨s.trucks, setRouteStatus s.routes rid st, s.dests, s.dps, dons, led,
      s.nextId⟩ := by
  intro r1 h1 r2 h2 hs1 hs2 hover
  obtain ⟨a1, ha1, rfl⟩ := List.mem_map.mp h1
  obtain ⟨a2, ha2, rfl⟩ := List.mem_map.mp h2
  have hnc : ∀ a ∈ s.routes,
      (if (a.id == rid) = true then { a with status := st } else a).status ≠ .cancelled →
      a.status ≠ .cancelled := by
    intro a ha hsa
    by_cases h : (a.id == rid) = true
    · have haeq : a = r0 := find_unique Route.id s.routes rid r0 a hrpw hfr ha (beq_iff_eq.mp h)
      rw [haeq]
      exact hr0
    · simpa [h] using hsa
  have hn1 := hnc a1 ha1 hs1
  have hn2 := hnc a2 ha2 hs2
  obtain ⟨_, htr1, hus1, hdt1, _⟩ := setStatus_fields a1 rid st
  obtain ⟨_, htr2, hus2, hdt2, _⟩ := setStatus_fields a2 rid st
  rw [htr1, htr2, hus1, hus2, hdt1, hdt2] at hover
  have h12 : a1 = a2 := hnd a1 ha1 a2 ha2 hn1 hn2 hover
  rw [h12]

theorem inv_startRoute (s : Sched) (rid : Nat) (hinv : SchedInv s) :
    SchedInv (startRoute s rid).2 := by
  obtain ⟨hids, hlwf, hcap, hnd, hty⟩ := hinv
  have hinv0 : SchedInv s := ⟨hids, hlwf, hcap, hnd, hty⟩
  unfold startRoute
  split
  case h_1 => exact hinv0
  case h_2 r hfr =>
    split
    case h_1 hst =>
      exact ⟨idsok_after_setStatus s rid .inProgress s.ledger s.donations hids, hlwf,
        capok_after_setStatus s rid .inProgress s.ledger s.donations hcap,
        nodouble_after_statusStep s rid .inProgress s.ledger s.donations (by simp) r hfr
          (by rw [hst]; simp) hids.2.2.2.1 hnd,
        typeok_after_setStatus s rid .inProgress s.ledger s.donations hty⟩
    case h_2 => exact hinv0

theorem inv_completeRoute (s : Sched) (rid date : Nat) (hinv : SchedInv s) :
    SchedInv (completeRoute s rid date).2 := by
  obtain ⟨hids, hlwf, hcap, hnd, hty⟩ := hinv
  have hinv0 : SchedInv s := ⟨hids, hlwf, hcap, hnd, hty⟩
  unfold completeRoute
  split
  case h_1 => exact hinv0
  case h_2 r hfr =>
    split
    case h_1 hst =>
      split
      case h_1 hrty =>
        exact ⟨idsok_after_setStatus s rid .completed
            (commitRouteReservations s.ledger s rid) s.donations hids,
          commitRouteReservations_wf s.ledger s rid hlwf,
          capok_after_setStatus s rid .completed
            (commitRouteReservations s.ledger s rid) s.donations hcap,
          nodouble_after_statusStep s rid .completed
            (commitRouteReservations s.ledger s rid) s.donations (by simp) r hfr
            (by rw [hst]; simp) hids.2.2.2.1 hnd,
          typeok_after_setStatus s rid .completed
            (commitRouteReservations s.ledger s rid) s.donations hty⟩
      case h_2 hrty =>
        exact ⟨idsok_after_setStatus s rid .completed
            (reconcileAll s.ledger s.donations rid date).1
            (reconcileAll s.ledger s.donations rid date).2 hids,
          reconcileAll_wf s.ledger s.donations rid date hlwf,
          capok_after_setStatus s rid .completed
            (reconcileAll s.ledger s.donations rid date).1
            (reconcileAll s.ledger s.donations rid date).2 hcap,
          nodouble_after_statusStep s rid .completed
            (reconcileAll s.ledger s.donations rid date).1
            (reconcileAll s.ledger s.donations rid date).2 (by simp) r hfr
            (by rw [hst]; simp) hids.2.2.2.1 hnd,
          typeok_after_setStatus s rid .completed
            (reconcileAll s.ledger s.donations rid date).1
            (reconcileAll s.ledger s.donations rid date).2 hty⟩
    case h_2 => exact hinv0

theorem inv_cancelRoute (s : Sched) (rid : Nat) (hinv : SchedInv s) :
    SchedInv (cancelRoute s rid).2 := by
  obtain ⟨hids, hlwf, hcap, hnd, hty⟩ := hinv
  have hinv0 : SchedInv s := ⟨hids, hlwf, hcap, hnd, hty⟩
  unfold cancelRoute
  split
  case h_1 => exact hinv0
  case h_2 r hfr =>
    split
    case h_3 => exact hinv0
    all_goals
      exact ⟨idsok_after_setStatus s rid .cancelled
          (releaseRouteReservations s.ledger s rid)
          (s.donations.map fun dn =>
            if dn.routeId == some rid then { dn with routeId := none } else dn) hids,
        releaseRouteReservations_wf s.ledger s rid hlwf,
        capok_after_setStatus s rid .cancelled
          (releaseRouteReservations s.ledger s rid)
          (s.donations.map fun dn =>
            if dn.routeId == some rid then { dn with routeId := none } else dn) hcap,
        nodouble_after_cancelStatus s rid
          (releaseRouteReservations s.ledger s rid)
          (s.donations.map fun dn =>
            if dn.routeId == some rid then { dn with routeId := none } else dn) hnd,
        typeok_after_setStatus s rid .cancelled
          (releaseRouteReservations s.ledger s rid)
          (s.donations.map fun dn =>
            if dn.routeId == some rid then { dn with routeId := none } else dn) hty⟩

theorem inv_applySOp (s : Sched) (op : SOp) (hinv : SchedInv s) :
    SchedInv (applySOp s op) := by
  cases op with
  | createRoute date ty t u => exact inv_createRoute s date ty t u hinv
  | addDestination rid addr ty => exact inv_addDestination s rid addr ty hinv
  | addProduct d p z q => exact inv_addProduct s d p z q hinv
  | removeProduct dpId => exact inv_removeProduct s dpId hinv
  | updateQty dpId q => exact inv_updateQty s dpId q hinv
  | start rid => exact inv_startRoute s rid hinv
  | complete rid date => exact inv_completeRoute s rid date hinv
  | cancel rid => exact inv_cancelRoute s rid hinv

theorem inv_runSOps (s : Sched) (ops : List SOp) (hinv : SchedInv s) :
    SchedInv (runSOps s ops) := by
  induction ops generalizing s with
  | nil => exact hinv
  | cons op rest ih => exact ih (applySOp s op) (inv_applySOp s op hinv)

/-- Observational equality of two ledgers: same on-hand and same available
quantity at every (product, zone) key. -/
def StockObsEq (lp l : Ledger) : Prop :=
  ∀ p z, onHand lp p z = onHand l p z ∧ available lp p z = available l p z

/-- The scheduler data a rejected mutation must leave intact: every table and
the stock observables. -/
def DataEq (sp s : Sched) : Prop :=
  sp.trucks = s.trucks ∧ sp.routes = s.routes ∧ sp.dests = s.dests ∧ sp.dps = s.dps ∧
  sp.donations = s.donations ∧ StockObsEq sp.ledger s.ledger

theorem StockObsEq_refl (l : Ledger) : StockObsEq l l :=
  fun _ _ => ⟨rfl, rfl⟩

theorem DataEq_refl (s : Sched) : DataEq s s :=
  ⟨rfl, rfl, rfl, rfl, rfl, StockObsEq_refl s.ledger⟩

theorem setStatus_cons_fresh (rs : List Reservation) (r0 : Reservation) (st : HStatus)
    (hfresh : ∀ r ∈ rs, r.handle ≠ r0.handle) :
    setStatus (r0 :: rs) r0.handle st = { r0 with status := st } :: rs := by
  unfold setStatus
  rw [List.map_cons]
  congr 1
  · simp
  · apply (List.map_congr_left _).trans (List.map_id rs)
    intro r hr
    simp [beq_eq_false_iff_ne.mpr (hfresh r hr)]

theorem release_after_reserve (l : Ledger) (p : Nat) (z : String) (q : Nat)
    (led1 : Ledger) (h : Nat) (hres : reserve l p z q = .ok (led1, h)) :
    release led1 h = .ok ⟨led1.stock, setStatus led1.reservations h .released,
      led1.nextHandle⟩ := by
  unfold reserve at hres
  split at hres
  case isTrue =>
    cases hres
    unfold release findRes
    rw [List.find?_cons_of_pos _ (by simp)]
  case isFalse => exact absurd hres (by simp)

theorem reserve_release_obsEq (l : Ledger) (p : Nat) (z : String) (q : Nat)
    (led1 : Ledger) (h : Nat) (hlwf : LedgerWF l)
    (hres : reserve l p z q = .ok (led1, h)) :
    StockObsEq ⟨led1.stock, setStatus led1.reservations h .released, led1.nextHandle⟩ l := by
  unfold reserve at hres
  split at hres
  case isTrue =>
    cases hres
    intro pp zz
    have hset : setStatus (⟨l.nextHandle, p, z, q, .active⟩ :: l.reservations) l.nextHandle
        .released = (⟨l.nextHandle, p, z, q, .released⟩ : Reservation) :: l.reservations :=
      setStatus_cons_fresh l.reservations ⟨l.nextHandle, p, z, q, .active⟩ .released
        (fun r hr => Nat.ne_of_lt (hlwf r hr))
    constructor
    · rfl
    · show available ⟨l.stock, _, _⟩ pp zz = available l pp zz
      rw [hset]
      rw [available_consRes l ⟨l.nextHandle, p, z, q, .released⟩ (l.nextHandle + 1) pp zz]
      have hc : resContrib pp zz ⟨l.nextHandle, p, z, q, .released⟩ = 0 := by
        simp [resContrib]
      rw [hc]
      ring
  case isFalse => exact absurd hres (by simp)

theorem addProduct_fail_noChange (s : Sched) (destId product : Nat) (zone : String)
    (qty : Nat) (hlwf : LedgerWF s.ledger)
    (herr : ((addProduct s destId product zone qty).1).isSome = true) :
    DataEq (addProduct s destId product zone qty).2 s := by
  unfold addProduct at herr ⊢
  split
  case isTrue => exact DataEq_refl s
  case isFalse hq =>
    split
    case h_1 => exact DataEq_refl s
    case h_2 d hfd =>
      split
      case h_1 => exact DataEq_refl s
      case h_2 r hfr =>
        split
        case h_1 => exact DataEq_refl s
        case h_2 t hft =>
          split
          case h_1 hrty =>
            split
            case h_1 => exact DataEq_refl s
            case h_2 led1 hh hres =>
              split
              case isTrue hguard =>
                simp [hq, hfd, hfr, hft, hrty, hres, hguard] at herr
              case isFalse hguard =>
                split
                case h_1 led2 hrel =>
                  have hstruct : led2 = ⟨led1.stock,
                      setStatus led1.reservations hh .released, led1.nextHandle⟩ :=
                    (Except.ok.inj ((release_after_reserve s.ledger product zone qty led1 hh
                      hres).symm.trans hrel)).symm
                  refine ⟨rfl, rfl, rfl, rfl, rfl, ?_⟩
                  show StockObsEq led2 s.ledger
                  rw [hstruct]
                  exact reserve_release_obsEq s.ledger product zone qty led1 hh hlwf hres
                case h_2 e hrel =>
                  rw [release_after_reserve s.ledger product zone qty led1 hh hres] at hrel
                  exact absurd hrel (by simp)
          case h_2 hrty =>
            split
            case isTrue hguard =>
              simp [hq, hfd, hfr, hft, hrty, hguard] at herr
            case isFalse => exact DataEq_refl s

theorem updateQty_fail_noChange (s : Sched) (dpId qty : Nat)
    (herr : ((updateQty s dpId qty).1).isSome = true) :
    (updateQty s dpId qty).2 = s := by
  unfold updateQty at herr ⊢
  split
  case isTrue => rfl
  case isFalse hq =>
    split
    case h_1 => rfl
    case h_2 dp hfdp =>
      split
      case h_1 => rfl
      case h_2 d hfd =>
        split
        case h_1 => rfl
        case h_2 r hfr =>
          split
          case h_1 => rfl
          case h_2 t hft =>
            split
            case isTrue hguard =>
              simp [hq, hfdp, hfd, hfr, hft, hguard] at herr
            case isFalse => rfl

/-- Claim C1: at every reachable state the sum of destination-product
quantities across a route's destinations is at most the assigned truck's
capacity; every destination-product mutation is validated against the
hypothetical post-mutation total (so the invariant still holds after any
further mutation), and a rejected mutation leaves the tables and the stock
observables unchanged. -/
theorem C1_capacity_invariant (s : Sched) (ops : List SOp) (hinv : SchedInv s) :
    CapOk (runSOps s ops) ∧
    (∀ op, CapOk (applySOp (runSOps s ops) op)) ∧
    (∀ destId product zone qty,
      ((addProduct (runSOps s ops) destId product zone qty).1).isSome = true →
      DataEq (addProduct (runSOps s ops) destId product zone qty).2 (runSOps s ops)) ∧
    (∀ dpId qty, ((updateQty (runSOps s ops) dpId qty).1).isSome = true →
      (updateQty (runSOps s ops) dpId qty).2 = runSOps s ops) := by
  have hrun := inv_runSOps s ops hinv
  refine ⟨hrun.2.2.1, ?_, ?_, ?_⟩
  · intro op
    exact (inv_applySOp (runSOps s ops) op hrun).2.2.1
  · intro destId product zone qty herr
    exact addProduct_fail_noChange (runSOps s ops) destId product zone qty hrun.2.1 herr
  · intro dpId qty herr
    exact updateQty_fail_noChange (runSOps s ops) dpId qty herr

/-- The empty scheduler state over a single truck of capacity 10. -/
def sched0 : Sched := ⟨[(1, 10)], [], [], [], [], ⟨[], [], 0⟩, 0⟩

theorem sched0_inv : SchedInv sched0 := by
  unfold SchedInv IdsOk LedgerWF CapOk NoDouble TypeOk sched0
  refine ⟨⟨?_, ?_, ?_, ?_, ?_, ?_⟩, ?_, ?_, ?_, ?_⟩ <;> simp

/-- Witness for C1 at a concrete input: the spec's capacity scenario — truck
capacity 10, a collect route with one destination, a product of quantity 6
accepted, then a product of quantity 5 rejected. -/
theorem C1_capacity_invariant_witness :
    CapOk (runSOps sched0
      [.createRoute 5 .collect 1 1, .addDestination 0 7 .collect,
        .addProduct 1 2 "A1" 6, .addProduct 1 3 "A1" 5]) ∧
    (∀ op, CapOk (applySOp (runSOps sched0
      [.createRoute 5 .collect 1 1, .addDestination 0 7 .collect,
        .addProduct 1 2 "A1" 6, .addProduct 1 3 "A1" 5]) op)) ∧
    (∀ destId product zone qty,
      ((addProduct (runSOps sched0
        [.createRoute 5 .collect 1 1, .addDestination 0 7 .collect,
          .addProduct 1 2 "A1" 6, .addProduct 1 3 "A1" 5]) destId product zone qty).1).isSome =
            true →
      DataEq (addProduct (runSOps sched0
        [.createRoute 5 .collect 1 1, .addDestination 0 7 .collect,
          .addProduct 1 2 "A1" 6, .addProduct 1 3 "A1" 5]) destId product zone qty).2
        (runSOps sched0
          [.createRoute 5 .collect 1 1, .addDestination 0 7 .collect,
            .addProduct 1 2 "A1" 6, .addProduct 1 3 "A1" 5])) ∧
    (∀ dpId qty, ((updateQty (runSOps sched0
      [.createRoute 5 .collect 1 1, .addDestination 0 7 .collect,
        .addProduct 1 2 "A1" 6, .addProduct 1 3 "A1" 5]) dpId qty).1).isSome = true →
      (updateQty (runSOps sched0
        [.createRoute 5 .collect 1 1, .addDestination 0 7 .collect,
          .addProduct 1 2 "A1" 6, .addProduct 1 3 "A1" 5]) dpId qty).2 =
        runSOps sched0
          [.createRoute 5 .collect 1 1, .addDestination 0 7 .collect,
            .addProduct 1 2 "A1" 6, .addProduct 1 3 "A1" 5]) :=
  C1_capacity_invariant sched0
    [.createRoute 5 .collect 1 1, .addDestination 0 7 .collect,
      .addProduct 1 2 "A1" 6, .addProduct 1 3 "A1" 5] sched0_inv

/-- Claim C2: createRoute fails with Conflict exactly when an active
(non-cancelled) route already exists for the truck or the user on the date
(leaving the state unchanged), and at every reachable state at most one
non-cancelled route exists per (truck, date) and per (user, date). -/
theorem C2_no_double_booking (s : Sched) (ops : List SOp) (hinv : SchedInv s) :
    NoDouble (runSOps s ops) ∧
    (∀ date ty truckId userId,
      ((∃ r ∈ (runSOps s ops).routes, r.status ≠ .cancelled ∧
          ((r.truckId = truckId ∧ r.date = date) ∨ (r.userId = userId ∧ r.date = date))) →
        createRoute (runSOps s ops) date ty truckId userId =
          (some .conflict, runSOps s ops)) ∧
      (¬(∃ r ∈ (runSOps s ops).routes, r.status ≠ .cancelled ∧
          ((r.truckId = truckId ∧ r.date = date) ∨ (r.userId = userId ∧ r.date = date))) →
        (createRoute (runSOps s ops) date ty truckId userId).1 = none)) := by
  have hrun := inv_runSOps s ops hinv
  refine ⟨hrun.2.2.2.1, ?_⟩
  intro date ty truckId userId
  constructor
  · intro hex
    have hc : hasConflict (runSOps s ops) date truckId userId = true :=
      (hasConflict_iff _ _ _ _).mpr hex
    unfold createRoute
    rw [if_pos hc]
  · intro hnex
    have hc : ¬ hasConflict (runSOps s ops) date truckId userId = true := by
      intro hcc
      exact hnex ((hasConflict_iff _ _ _ _).mp hcc)
    unfold createRoute
    rw [if_neg hc]

/-- Witness for C2 at a concrete input: after booking truck 1 and user 1 on
date 5, the no-double-booking invariant holds and a second booking for the
same truck and date conflicts. -/
theorem C2_no_double_booking_witness :
    NoDouble (runSOps sched0 [.createRoute 5 .collect 1 1]) ∧
    (∀ date ty truckId userId,
      ((∃ r ∈ (runSOps sched0 [.createRoute 5 .collect 1 1]).routes,
          r.status ≠ .cancelled ∧
          ((r.truckId = truckId ∧ r.date = date) ∨ (r.userId = userId ∧ r.date = date))) →
        createRoute (runSOps sched0 [.createRoute 5 .collect 1 1]) date ty truckId userId =
          (some .conflict, runSOps sched0 [.createRoute 5 .collect 1 1])) ∧
      (¬(∃ r ∈ (runSOps sched0 [.createRoute 5 .collect 1 1]).routes,
          r.status ≠ .cancelled ∧
          ((r.truckId = truckId ∧ r.date = date) ∨ (r.userId = userId ∧ r.date = date))) →
        (createRoute (runSOps sched0 [.createRoute 5 .collect 1 1])
          date ty truckId userId).1 = none)) :=
  C2_no_double_booking sched0 [.createRoute 5 .collect 1 1] sched0_inv

/-- Claim C6: addDestination fails with TypeMismatch, adding no destination,
whenever the given type differs from the route's type, and at every reachable
state every persisted destination's type equals its route's type. -/
theorem C6_destination_type_matches (s : Sched) (ops : List SOp) (hinv : SchedInv s) :
    TypeOk (runSOps s ops) ∧
    (∀ rid addr ty r, findRoute (runSOps s ops).routes rid = some r → ty ≠ r.rtype →
      addDestination (runSOps s ops) rid addr ty = (some .typeMismatch, runSOps s ops)) := by
  have hrun := inv_runSOps s ops hinv
  refine ⟨hrun.2.2.2.2, ?_⟩
  intro rid addr ty r hfr hne
  simp only [addDestination, hfr]
  rw [if_pos hne]

/-- Witness for C6 at a concrete input: a distribute destination on a collect
route is rejected, and the persisted destinations all match their routes. -/
theorem C6_destination_type_matches_witness :
    TypeOk (runSOps sched0 [.createRoute 5 .collect 1 1, .addDestination 0 7 .collect]) ∧
    (∀ rid addr ty r,
      findRoute (runSOps sched0
        [.createRoute 5 .collect 1 1, .addDestination 0 7 .collect]).routes rid = some r →
      ty ≠ r.rtype →
      addDestination (runSOps sched0
        [.createRoute 5 .collect 1 1, .addDestination 0 7 .collect]) rid addr ty =
        (some .typeMismatch,
          runSOps sched0 [.createRoute 5 .collect 1 1, .addDestination 0 7 .collect])) :=
  C6_destination_type_matches sched0
    [.createRoute 5 .collect 1 1, .addDestination 0 7 .collect] sched0_inv

/-- Claim C3: on a Distribute route, addProduct attempts the stock reservation
first — a failed reservation yields InsufficientStock with no state change; a
failed capacity check releases the just-taken reservation and yields
CapacityExceeded with tables and stock observables intact; the row is
persisted only when both checks pass. -/
theorem C3_distribute_addProduct (s : Sched) (destId product : Nat) (zone : String)
    (qty : Nat) (d : Destination) (r : Route) (t : Nat × Nat)
    (hq : qty ≠ 0)
    (hfd : findDest s.dests destId = some d)
    (hfr : findRoute s.routes d.routeId = some r)
    (hft : findTruck s.trucks r.truckId = some t)
    (hrty : r.rtype = .distribute)
    (hlwf : LedgerWF s.ledger) :
    (∀ e, reserve s.ledger product zone qty = .error e →
      addProduct s destId product zone qty = (some .insufficientStock, s)) ∧
    (∀ led1 h, reserve s.ledger product zone qty = .ok (led1, h) →
      t.snd < routeLoad s.dests s.dps r.id + qty →
      (addProduct s destId product zone qty).1 = some .capacityExceeded ∧
      (addProduct s destId product zone qty).2.dps = s.dps ∧
      (addProduct s destId product zone qty).2.routes = s.routes ∧
      (addProduct s destId product zone qty).2.dests = s.dests ∧
      findRes (addProduct s destId product zone qty).2.ledger h =
        some ⟨h, product, zone, qty, .released⟩ ∧
      StockObsEq (addProduct s destId product zone qty).2.ledger s.ledger) ∧
    (∀ led1 h, reserve s.ledger product zone qty = .ok (led1, h) →
      routeLoad s.dests s.dps r.id + qty ≤ t.snd →
      addProduct s destId product zone qty =
        (none, { s with
          ledger := led1,
          dps := s.dps ++ [⟨s.nextId, destId, product, qty, some h⟩],
          nextId := s.nextId + 1 })) := by
  refine ⟨?_, ?_, ?_⟩
  · intro e hres
    simp [addProduct, hq, hfd, hfr, hft, hrty, hres]
  · intro led1 h hres hgt
    have hguard : ¬(routeLoad s.dests s.dps r.id + qty ≤ t.snd) := Nat.not_le.mpr hgt
    have hrel := release_after_reserve s.ledger product zone qty led1 h hres
    have hkey : addProduct s destId product zone qty = (some .capacityExceeded,
        { s with ledger := ⟨led1.stock, setStatus led1.reservations h .released,
          led1.nextHandle⟩ }) := by
      simp [addProduct, hq, hfd, hfr, hft, hrty, hres, hguard, hrel]
    rw [hkey]
    unfold reserve at hres
    split at hres
    case isFalse => exact absurd hres (by simp)
    case isTrue hle =>
      injection hres with hres1
      obtain ⟨rfl, rfl⟩ : led1 = ⟨s.ledger.stock,
          ⟨s.ledger.nextHandle, product, zone, qty, .active⟩ :: s.ledger.reservations,
          s.ledger.nextHandle + 1⟩ ∧ h = s.ledger.nextHandle :=
        ⟨(congrArg Prod.fst hres1).symm, (congrArg Prod.snd hres1).symm⟩
      have hset : setStatus
          (⟨s.ledger.nextHandle, product, zone, qty, .active⟩ :: s.ledger.reservations)
          s.ledger.nextHandle .released =
          (⟨s.ledger.nextHandle, product, zone, qty, .released⟩ : Reservation) ::
            s.ledger.reservations :=
        setStatus_cons_fresh s.ledger.reservations
          ⟨s.ledger.nextHandle, product, zone, qty, .active⟩ .released
          (fun x hx => Nat.ne_of_lt (hlwf x hx))
      refine ⟨rfl, rfl, rfl, rfl, ?_, ?_⟩
      · show findRes ⟨s.ledger.stock, setStatus _ _ _, _⟩ s.ledger.nextHandle = _
        rw [hset]
        unfold findRes
        rw [List.find?_cons_of_pos _ (by simp)]
      · have hres' : reserve s.ledger product zone qty = .ok (⟨s.ledger.stock,
            ⟨s.ledger.nextHandle, product, zone, qty, .active⟩ :: s.ledger.reservations,
            s.ledger.nextHandle + 1⟩, s.ledger.nextHandle) := by
          unfold reserve
          rw [if_pos hle]
        exact reserve_release_obsEq s.ledger product zone qty _ _ hlwf hres'
  · intro led1 h hres hle
    simp [addProduct, hq, hfd, hfr, hft, hrty, hres, hle]

/-- A distribute route with one destination, truck capacity 10, and 20 units
of product 2 on hand in zone A1. -/
def sched3 : Sched :=
  ⟨[(1, 10)], [⟨0, 5, .distribute, 1, 1, .planned⟩], [⟨1, 0, 7, .distribute⟩], [], [],
    ⟨[((2, "A1"), 20)], [], 0⟩, 2⟩

/-- Witness for C3 at a concrete input: requesting 15 units of product 2
reserves successfully (20 on hand) but exceeds the capacity of 10, so the
branch conclusions of the claim hold at that input. -/
theorem C3_distribute_addProduct_witness :
    (∀ e, reserve sched3.ledger 2 "A1" 15 = .error e →
      addProduct sched3 1 2 "A1" 15 = (some .insufficientStock, sched3)) ∧
    (∀ led1 h, reserve sched3.ledger 2 "A1" 15 = .ok (led1, h) →
      (1, 10).snd < routeLoad sched3.dests sched3.dps
        (⟨0, 5, .distribute, 1, 1, .planned⟩ : Route).id + 15 →
      (addProduct sched3 1 2 "A1" 15).1 = some .capacityExceeded ∧
      (addProduct sched3 1 2 "A1" 15).2.dps = sched3.dps ∧
      (addProduct sched3 1 2 "A1" 15).2.routes = sched3.routes ∧
      (addProduct sched3 1 2 "A1" 15).2.dests = sched3.dests ∧
      findRes (addProduct sched3 1 2 "A1" 15).2.ledger h =
        some ⟨h, 2, "A1", 15, .released⟩ ∧
      StockObsEq (addProduct sched3 1 2 "A1" 15).2.ledger sched3.ledger) ∧
    (∀ led1 h, reserve sched3.ledger 2 "A1" 15 = .ok (led1, h) →
      routeLoad sched3.dests sched3.dps
          (⟨0, 5, .distribute, 1, 1, .planned⟩ : Route).id + 15 ≤ (1, 10).snd →
      addProduct sched3 1 2 "A1" 15 =
        (none, { sched3 with
          ledger := led1,
          dps := sched3.dps ++ [⟨sched3.nextId, 1, 2, 15, some h⟩],
          nextId := sched3.nextId + 1 })) :=
  C3_distribute_addProduct sched3 1 2 "A1" 15 ⟨1, 0, 7, .distribute⟩
    ⟨0, 5, .distribute, 1, 1, .planned⟩ (1, 10) (by decide) (by rfl) (by rfl) (by rfl)
    (by rfl) (by intro x hx; simp [sched3] at hx)

/-- Total quantity of the donations linked to a route, for one product. -/
def linkedQty (dons : List Donation) (rid : Nat) (p : Nat) : Int :=
  (dons.map fun dn =>
    if dn.routeId = some rid ∧ dn.product = p then (dn.qty : Int) else 0).sum

theorem reconcileAll_onHand (dons : List Donation) (rid date : Nat) (p : Nat) :
    ∀ led : Ledger,
      (∀ dn ∈ dons, dn.routeId = some rid → dn.collected = false ∧ 0 < dn.qty) →
      onHand (reconcileAll led dons rid date).1 p intakeZone =
        onHand led p intakeZone + linkedQty dons rid p := by
  induction dons with
  | nil =>
    intro led _
    simp [reconcileAll, linkedQty]
  | cons dn rest ih =>
    intro led hdons
    have hrest : ∀ dn' ∈ rest, dn'.routeId = some rid → dn'.collected = false ∧ 0 < dn'.qty :=
      fun dn' h' => hdons dn' (List.mem_cons_of_mem _ h')
    unfold reconcileAll
    by_cases hl : (dn.routeId == some rid && !dn.collected) = true
    · rw [if_pos hl]
      have hlink : dn.routeId = some rid := by
        have hl2 := hl
        rw [Bool.and_eq_true] at hl2
        exact beq_iff_eq.mp hl2.1
      obtain ⟨hcol, hqty⟩ := hdons dn (List.mem_cons_self _ _) hlink
      have hcred : credit led dn.product intakeZone dn.qty =
          .ok { led with
            stock := addStock led.stock (dn.product, intakeZone) (dn.qty : Int) } := by
        unfold credit
        rw [if_pos hqty]
      simp only [hcred]
      rw [ih _ hrest]
      have honh : onHand { led with
          stock := addStock led.stock (dn.product, intakeZone) (dn.qty : Int) } p intakeZone =
          onHand led p intakeZone + (if p = dn.product then (dn.qty : Int) else 0) := by
        unfold onHand
        have hlk := lookupStock_addStock led.stock (dn.product, intakeZone)
          (p, intakeZone) (dn.qty : Int)
        by_cases hp : p = dn.product
        · rw [hlk, if_pos (by rw [hp]), if_pos hp]
        · rw [hlk, if_neg (by
            intro hc
            exact hp (congrArg Prod.fst hc)), if_neg hp]
          ring
      rw [honh]
      unfold linkedQty
      rw [List.map_cons, List.sum_cons]
      by_cases hp : p = dn.product
      · rw [if_pos hp, if_pos ⟨hlink, hp.symm⟩]
        unfold linkedQty at *
        ring
      · rw [if_neg hp, if_neg (by
          intro hc
          exact hp hc.2.symm)]
        unfold linkedQty at *
        ring
    · rw [if_neg hl]
      have hnl : ¬ dn.routeId = some rid := by
        intro hc
        obtain ⟨hcol, _⟩ := hdons dn (List.mem_cons_self _ _) hc
        apply hl
        rw [Bool.and_eq_true]
        exact ⟨beq_iff_eq.mpr hc, by rw [hcol]; rfl⟩
      show onHand (reconcileAll led rest rid date).1 p intakeZone = _
      rw [ih led hrest]
      unfold linkedQty
      rw [List.map_cons, List.sum_cons, if_neg (fun hc => hnl hc.1)]
      ring

theorem reconcileAll_marks (dons : List Donation) (rid date : Nat) :
    ∀ led : Ledger,
      (∀ dn ∈ dons, dn.routeId = some rid → dn.collected = false ∧ 0 < dn.qty) →
      ∀ dn' ∈ (reconcileAll led dons rid date).2, dn'.routeId = some rid →
        dn'.collected = true ∧ dn'.collectionDate = some date := by
  induction dons with
  | nil =>
    intro led _ dn' h'
    simp [reconcileAll] at h'
  | cons dn rest ih =>
    intro led hdons dn' h' hlink'
    have hrest : ∀ x ∈ rest, x.routeId = some rid → x.collected = false ∧ 0 < x.qty :=
      fun x hx => hdons x (List.mem_cons_of_mem _ hx)
    unfold reconcileAll at h'
    by_cases hl : (dn.routeId == some rid && !dn.collected) = true
    · rw [if_pos hl] at h'
      have hlink : dn.routeId = some rid := by
        have hl2 := hl
        rw [Bool.and_eq_true] at hl2
        exact beq_iff_eq.mp hl2.1
      obtain ⟨hcol, hqty⟩ := hdons dn (List.mem_cons_self _ _) hlink
      have hcred : credit led dn.product intakeZone dn.qty =
          .ok { led with
            stock := addStock led.stock (dn.product, intakeZone) (dn.qty : Int) } := by
        unfold credit
        rw [if_pos hqty]
      simp only [hcred] at h'
      rcases List.mem_cons.mp h' with rfl | h'
      · exact ⟨rfl, rfl⟩
      · exact ih _ hrest dn' h' hlink'
    · rw [if_neg hl] at h'
      have hnl : ¬ dn.routeId = some rid := by
        intro hc
        obtain ⟨hcol, _⟩ := hdons dn (List.mem_cons_self _ _) hc
        apply hl
        rw [Bool.and_eq_true]
        exact ⟨beq_iff_eq.mpr hc, by rw [hcol]; rfl⟩
      rcases List.mem_cons.mp h' with rfl | h'
      · exact absurd hlink' hnl
      · exact ih _ hrest dn' h' hlink'

/-- Claim C8: completing a Collect route credits the intake zone with every
linked donation's (product, quantity) — on-hand per product rises by the sum
of the linked quantities — and marks every linked donation collected with the
completion date. -/
theorem C8_collect_completion (s : Sched) (rid date : Nat) (r : Route)
    (hfr : findRoute s.routes rid = some r)
    (hty : r.rtype = .collect) (hst : r.status = .inProgress)
    (hdons : ∀ dn ∈ s.donations, dn.routeId = some rid →
      dn.collected = false ∧ 0 < dn.qty) :
    (completeRoute s rid date).1 = none ∧
    (∀ p, onHand (completeRoute s rid date).2.ledger p intakeZone =
      onHand s.ledger p intakeZone + linkedQty s.donations rid p) ∧
    (∀ dn ∈ (completeRoute s rid date).2.donations, dn.routeId = some rid →
      dn.collected = true ∧ dn.collectionDate = some date) := by
  have hkey : completeRoute s rid date = (none, { s with
      ledger := (reconcileAll s.ledger s.donations rid date).1,
      donations := (reconcileAll s.ledger s.donations rid date).2,
      routes := setRouteStatus s.routes rid .completed }) := by
    simp [completeRoute, hfr, hst, hty]
  rw [hkey]
  exact ⟨rfl, fun p => reconcileAll_onHand s.donations rid date p s.ledger hdons,
    reconcileAll_marks s.donations rid date s.ledger hdons⟩

/-- A collect route in progress with two linked donations of product 2,
quantities 5 and 7, and an empty ledger. -/
def sched8 : Sched :=
  ⟨[(1, 10)], [⟨0, 5, .collect, 1, 1, .inProgress⟩], [], [],
    [⟨0, 2, 5, some 0, false, none⟩, ⟨1, 2, 7, some 0, false, none⟩],
    ⟨[], [], 0⟩, 2⟩

/-- Witness for C8 at a concrete input: the spec's reconciliation scenario —
two linked donations (5 and 7 of the same product); completion succeeds, the
intake zone rises by their sum per product, and both are marked collected
with the completion date. -/
theorem C8_collect_completion_witness :
    (completeRoute sched8 0 9).1 = none ∧
    (∀ p, onHand (completeRoute sched8 0 9).2.ledger p intakeZone =
      onHand sched8.ledger p intakeZone + linkedQty sched8.donations 0 p) ∧
    (∀ dn ∈ (completeRoute sched8 0 9).2.donations, dn.routeId = some 0 →
      dn.collected = true ∧ dn.collectionDate = some 9) :=
  C8_collect_completion sched8 0 9 ⟨0, 5, .collect, 1, 1, .inProgress⟩
    (by rfl) (by rfl) (by rfl) (by decide)

end NoMoreWaste
